import Mathlib

/-!
# Verification of the Plasma client library (`cpp/src/plasma/client.h`)

A shallow embedding of the Plasma shared-memory object-store client.
The repository provides the public header `cpp/src/plasma/client.h`
(structure layouts, constants, and the declared API); the implementation
file is not part of the source tree, so the behaviour of each operation
is modelled from the natural-language specification (`spec.md`), which
describes the mmap table, the in-use table, the delayed-release history
and the object lifecycle controller.

Machine integers are modelled as `Nat`/`Int`; the C++ `unordered_map`s
are modelled as association lists with distinct keys; object ids
(opaque 20-byte identifiers compared byte-wise) are modelled as `Nat`.
-/

namespace Plasma

/-! ## Association-list primitives (model of `std::unordered_map`) -/

/-- Lookup in an association list keyed by `Nat`. -/
def alookup (k : Nat) : List (Nat × α) → Option α
  | [] => none
  | (k', v) :: t => if k' = k then some v else alookup k t

/-- Erase every pair with the given key. -/
def aerase (k : Nat) : List (Nat × α) → List (Nat × α)
  | [] => []
  | (k', v) :: t => if k' = k then aerase k t else (k', v) :: aerase k t

/-- Insert-or-assign: the model of `map[k] = v`. -/
def aupdate (k : Nat) (v : α) (l : List (Nat × α)) : List (Nat × α) :=
  (k, v) :: aerase k l

/-- The keys of an association list are pairwise distinct. -/
def keysNodup (l : List (Nat × α)) : Prop := (l.map Prod.fst).Nodup

instance (l : List (Nat × α)) : Decidable (keysNodup l) := by
  unfold keysNodup; infer_instance

/-! ## Data model (from `client.h` and spec §3) -/

/-- `PlasmaObject`: the store-reported layout descriptor of one object
(spec §3; forward-declared in `client.h`). -/
structure PlasmaObject where
  store_fd : Nat
  map_size : Nat
  data_offset : Nat
  data_size : Nat
  metadata_offset : Nat
  metadata_size : Nat
  device_num : Nat
  deriving Repr, DecidableEq

/-- `ObjectInUseEntry` (spec §3; forward-declared in `client.h`):
per-object record of the in-use table. -/
structure ObjectInUseEntry where
  object : PlasmaObject
  local_refs : Nat
  is_sealed : Bool
  deriving Repr, DecidableEq

/-- `ClientMmapTableEntry` (`client.h` lines 69–77). The `pointer` field
(`uint8_t*` result of mmap) is modelled as an abstract address; `count`
is the C `int` field, modelled as `Int`. -/
structure ClientMmapTableEntry where
  pointer : Nat
  length : Nat
  count : Int
  deriving Repr, DecidableEq

/-- `ObjectBuffer` (`client.h` lines 48–59). Buffer pointers are modelled
as the byte contents they alias; the `int64_t` size fields are `Int`
(`data_size = -1` marks an object that was not retrieved). -/
structure ObjectBuffer where
  data : List Nat
  data_size : Int
  metadata : List Nat
  metadata_size : Int
  device_num : Nat
  deriving Repr, DecidableEq

/-- Modelled from the spec: one object held by the store daemon (the store
itself is outside `src/`; spec §1 and §6 describe it as the owner of the
shared-memory pool). `fd` is the store-assigned mapped-file identifier. -/
structure StoreEntry where
  fd : Nat
  data : List Nat
  metadata : List Nat
  sealed : Bool
  deriving Repr, DecidableEq

/-- `PLASMA_DEFAULT_RELEASE_DELAY` (`client.h` line 42). -/
def PLASMA_DEFAULT_RELEASE_DELAY : Nat := 64

/-- `kL3CacheSizeBytes` (`client.h` line 45): 100MB overestimate of the
L3 cache size. -/
def kL3CacheSizeBytes : Nat := 100000000

/-- The private state of `PlasmaClient` (`client.h` lines 350–382),
together with a model of the external store's contents (needed because
`Get`/`Create`/`Seal` exchange messages with the store). `next_fd` models
the store's fresh-descriptor allocation. -/
structure PlasmaClientState where
  connected : Bool
  manager_conn : Int
  mmap_table : List (Nat × ClientMmapTableEntry)
  objects_in_use : List (Nat × ObjectInUseEntry)
  release_history : List Nat
  in_use_object_bytes : Nat
  release_delay : Nat
  store_capacity : Nat
  store : List (Nat × StoreEntry)
  next_fd : Nat
  deriving Repr, DecidableEq

/-! ## Derived quantities -/

/-- Number of in-use-table entries whose `PlasmaObject.store_fd` is `fd`
(the quantity `ClientMmapTableEntry.count` must track, spec I2). -/
def countFd (fd : Nat) (l : List (Nat × ObjectInUseEntry)) : Nat :=
  (l.filter (fun p => p.2.object.store_fd = fd)).length

/-- Bytes accounted to one release-history entry:
`data_size + metadata_size` of its in-use record (spec §3
`InUseObjectBytes`). -/
def objBytesIn (iu : List (Nat × ObjectInUseEntry)) (id : Nat) : Nat :=
  match alookup id iu with
  | some e => e.object.data_size + e.object.metadata_size
  | none => 0

/-- Sum of the per-entry bytes over a history. -/
def histBytesIn (hist : List Nat) (iu : List (Nat × ObjectInUseEntry)) :
    Nat :=
  (hist.map (objBytesIn iu)).sum

/-- Sum of the per-entry bytes over the release history. -/
def histBytes (s : PlasmaClientState) : Nat :=
  histBytesIn s.release_history s.objects_in_use

/-- Modelled from the spec (§4.4): the capacity threshold
`floor(store_capacity / L3_ratio)` with the L3 constant
`kL3CacheSizeBytes`. -/
def capThreshold (s : PlasmaClientState) : Nat :=
  s.store_capacity / kL3CacheSizeBytes

/-- Modelled from the spec (§4.4): the flush condition of the delayed
release history — history longer than `release_delay`, or summed in-use
bytes above the capacity threshold. -/
def NeedFlush (s : PlasmaClientState) : Prop :=
  s.release_history.length > s.release_delay ∨
    s.in_use_object_bytes > capThreshold s

instance (s : PlasmaClientState) : Decidable (NeedFlush s) := by
  unfold NeedFlush; infer_instance

/-! ## Mmap table operations (spec §4.2) -/

/-- Modelled from the spec (§4.2, implementation not in `src/`):
decrement the `count` of the mmap-table entry for `fd`. Decrement to
zero unmaps the region and removes the entry; a missing entry or a
decrement below zero is a fatal invariant violation, modelled as
`none`. -/
def decrement_fd (t : List (Nat × ClientMmapTableEntry)) (fd : Nat) :
    Option (List (Nat × ClientMmapTableEntry)) :=
  match alookup fd t with
  | none => none
  | some e =>
    if e.count ≤ 0 then none
    else if e.count = 1 then some (aerase fd t)
    else some (aupdate fd { e with count := e.count - 1 } t)

/-- Modelled from the spec (§4.2): return the mmap table after making
sure `fd` is mapped — a fresh mapping has `count = 0` until
`increment_object_count` runs. Mirrors `PlasmaClient::lookup_or_mmap`
(`client.h` line 343). -/
def lookup_or_mmap (t : List (Nat × ClientMmapTableEntry)) (fd : Nat)
    (map_size : Nat) : List (Nat × ClientMmapTableEntry) :=
  match alookup fd t with
  | some _ => t
  | none => aupdate fd ⟨fd, map_size, 0⟩ t

/-- Modelled from the spec (§4.2): `increment(store_fd_id)`. -/
def increment_fd (t : List (Nat × ClientMmapTableEntry)) (fd : Nat) :
    List (Nat × ClientMmapTableEntry) :=
  match alookup fd t with
  | some e => aupdate fd { e with count := e.count + 1 } t
  | none => t

/-! ## In-use table operations (spec §4.3) -/

/-- Modelled from the spec (§4.3 `begin_use`, mirroring
`PlasmaClient::increment_object_count`, `client.h` line 347): if the
object is absent insert it with `local_refs = 1` and increment the mmap
entry (mapping it first if needed); if present just increment
`local_refs`. -/
def begin_use (s : PlasmaClientState) (id : Nat) (obj : PlasmaObject)
    (sealedFlag : Bool) : PlasmaClientState :=
  match alookup id s.objects_in_use with
  | some e =>
    { s with objects_in_use :=
        aupdate id { e with local_refs := e.local_refs + 1 } s.objects_in_use }
  | none =>
    let t := lookup_or_mmap s.mmap_table obj.store_fd obj.map_size
    { s with mmap_table := increment_fd t obj.store_fd,
             objects_in_use := aupdate id ⟨obj, 1, sealedFlag⟩ s.objects_in_use }

/-! ## Release history and delayed flushing (spec §4.4) -/

/-- Modelled from the spec (§4.4, mirroring `PlasmaClient::PerformRelease`,
`client.h` line 341): send the release message for `oid` (already popped
from the history by the caller), remove its in-use entry, subtract its
bytes, and decrement its mmap entry. A corrupt table (missing in-use
entry, or fatal mmap decrement) yields `none`. -/
def PerformRelease (s : PlasmaClientState) (oid : Nat) :
    Option PlasmaClientState :=
  match alookup oid s.objects_in_use with
  | none => none
  | some e =>
    match decrement_fd s.mmap_table e.object.store_fd with
    | none => none
    | some t =>
      some { s with mmap_table := t,
                    objects_in_use := aerase oid s.objects_in_use,
                    in_use_object_bytes :=
                      s.in_use_object_bytes -
                        (e.object.data_size + e.object.metadata_size) }

/-- Modelled from the spec (§4.4, step 1): while the flush condition
holds, pop the oldest history entry and perform its release. `fuel`
bounds the iteration; it is instantiated with the history length. -/
def flushLoop : Nat → PlasmaClientState → Option PlasmaClientState
  | 0, s => some s
  | fuel + 1, s =>
    if NeedFlush s then
      match s.release_history with
      | [] => some s
      | oid :: rest =>
        match PerformRelease { s with release_history := rest } oid with
        | none => none
        | some s' => flushLoop fuel s'
    else some s

/-- Modelled from the spec (§4.4): run the flush policy to quiescence. -/
def flushReleases (s : PlasmaClientState) : Option PlasmaClientState :=
  flushLoop s.release_history.length s

/-- Modelled from the spec (§4.7 Disconnect / `FlushReleaseHistory`,
`client.h` line 339): flush every pending release, oldest first. -/
def flushAllLoop : Nat → PlasmaClientState → Option PlasmaClientState
  | 0, s => some s
  | fuel + 1, s =>
    match s.release_history with
    | [] => some s
    | oid :: rest =>
      match PerformRelease { s with release_history := rest } oid with
      | none => none
      | some s' => flushAllLoop fuel s'

/-! ## Public operations (spec §4.5–§4.7) -/

/-- Outcome reported by a public operation: success, or a per-call error
that leaves the client usable (spec §7). -/
inductive OpStatus where
  | ok
  | staterr
  deriving Repr, DecidableEq

/-- Modelled from the spec (§4.7 Create, `client.h` lines 124–125): ask
the store to allocate the object (error if the store already has it),
map the returned file, insert the unsealed in-use entry with one
reference, and record the payload the creator writes before sealing. -/
def Create (s : PlasmaClientState) (id : Nat) (data meta : List Nat) :
    Option (PlasmaClientState × OpStatus) :=
  if s.connected = false then some (s, .staterr)
  else if (alookup id s.store).isSome then some (s, .staterr)
  else
    let fd := s.next_fd
    let obj : PlasmaObject :=
      ⟨fd, data.length + meta.length, 0, data.length,
        data.length, meta.length, 0⟩
    let s1 := { s with store := aupdate id ⟨fd, data, meta, false⟩ s.store,
                       next_fd := fd + 1 }
    some (begin_use s1 id obj false, .ok)

/-- Modelled from the spec (§4.7 Seal, `client.h` lines 175–181):
requires the Creating state (in use, unsealed); marks the object sealed
locally and at the store. -/
def Seal (s : PlasmaClientState) (id : Nat) :
    Option (PlasmaClientState × OpStatus) :=
  if s.connected = false then some (s, .staterr)
  else
    match alookup id s.objects_in_use with
    | none => some (s, .staterr)
    | some e =>
      if e.is_sealed then some (s, .staterr)
      else
        let st := match alookup id s.store with
          | some se => aupdate id { se with sealed := true } s.store
          | none => s.store
        let iu := aupdate id { e with is_sealed := true } s.objects_in_use
        some ({ s with objects_in_use := iu, store := st }, .ok)

/-- Modelled from the spec (§4.7 Abort, `client.h` lines 166–173):
requires the Creating state and `local_refs == 1`; returns the memory to
the store (as if the object was never created) and removes the local
in-use and mmap bookkeeping. Any other state is an error without state
change. -/
def Abort (s : PlasmaClientState) (id : Nat) :
    Option (PlasmaClientState × OpStatus) :=
  if s.connected = false then some (s, .staterr)
  else
    match alookup id s.objects_in_use with
    | none => some (s, .staterr)
    | some e =>
      if e.is_sealed then some (s, .staterr)
      else if e.local_refs ≠ 1 then some (s, .staterr)
      else
        match decrement_fd s.mmap_table e.object.store_fd with
        | none => none
        | some t =>
          some ({ s with mmap_table := t,
                         objects_in_use := aerase id s.objects_in_use,
                         store := aerase id s.store }, .ok)

/-- Modelled from the spec (§4.3 `end_use`): the state after `Release`
enqueues a zero-reference object, before the flush policy runs — the
entry is kept, its id is appended to the release history, and the byte
counter grows by the object's size. -/
def enqueueState (s : PlasmaClientState) (id : Nat)
    (e : ObjectInUseEntry) : PlasmaClientState :=
  { s with
    objects_in_use := aupdate id { e with local_refs := 0 } s.objects_in_use,
    release_history := s.release_history ++ [id],
    in_use_object_bytes :=
      s.in_use_object_bytes + (e.object.data_size + e.object.metadata_size) }

/-- Modelled from the spec (§4.4, §4.7 Release, `client.h` line 152):
requires the object in the in-use table, sealed, with `local_refs ≥ 1`.
Decrements `local_refs`; on reaching zero the entry is kept and the id
is appended to the release history, whose flush policy then runs to
quiescence before the call returns. -/
def Release (s : PlasmaClientState) (id : Nat) :
    Option (PlasmaClientState × OpStatus) :=
  if s.connected = false then some (s, .staterr)
  else
    match alookup id s.objects_in_use with
    | none => some (s, .staterr)
    | some e =>
      if e.is_sealed = false then some (s, .staterr)
      else if e.local_refs = 0 then some (s, .staterr)
      else if e.local_refs = 1 then
        (flushReleases (enqueueState s id e)).map (fun s' => (s', .ok))
      else
        let iu := aupdate id { e with local_refs := e.local_refs - 1 }
          s.objects_in_use
        some ({ s with objects_in_use := iu }, .ok)

/-- Modelled from the spec (§4.7 Delete, `client.h` lines 183–192):
best-effort; the store removes the object only when it is present,
sealed and not in use, and otherwise the call is a no-op. -/
def Delete (s : PlasmaClientState) (id : Nat) :
    Option (PlasmaClientState × OpStatus) :=
  if s.connected = false then some (s, .staterr)
  else
    match alookup id s.store with
    | none => some (s, .ok)
    | some se =>
      if se.sealed && (alookup id s.objects_in_use).isNone then
        some ({ s with store := aerase id s.store }, .ok)
      else some (s, .ok)

/-- Modelled from the spec (§4.6 Get, `client.h` lines 126–142): handle
one requested id against the current state. `prev` is the caller's
output slot before the call. An object already in use and sealed is
served locally — a queued object (zero references) is reclaimed from the
release history without a fresh mmap; an object the store holds sealed
is mapped and begins use; an object not ready by the deadline leaves the
slot's buffers untouched and sets `data_size = -1`. -/
def getOne (s : PlasmaClientState) (id : Nat) (prev : ObjectBuffer) :
    PlasmaClientState × ObjectBuffer :=
  let bytes : List Nat × List Nat :=
    match alookup id s.store with
    | some se => (se.data, se.metadata)
    | none => ([], [])
  match alookup id s.objects_in_use with
  | some e =>
    if e.is_sealed then
      let s' :=
        if e.local_refs = 0 then
          { s with release_history := s.release_history.filter (· ≠ id),
                   in_use_object_bytes :=
                     s.in_use_object_bytes -
                       (e.object.data_size + e.object.metadata_size) }
        else s
      (begin_use s' id e.object true,
        ⟨bytes.1, e.object.data_size,
          bytes.2, e.object.metadata_size, e.object.device_num⟩)
    else (s, { prev with data_size := -1 })
  | none =>
    match alookup id s.store with
    | some se =>
      if se.sealed then
        let obj : PlasmaObject :=
          ⟨se.fd, se.data.length + se.metadata.length, 0, se.data.length,
            se.data.length, se.metadata.length, 0⟩
        (begin_use s id obj true,
          ⟨se.data, se.data.length, se.metadata, se.metadata.length, 0⟩)
      else (s, { prev with data_size := -1 })
    | none => (s, { prev with data_size := -1 })

/-- Modelled from the spec (§4.6): process the requested ids in order,
threading the state. -/
def getLoop (s : PlasmaClientState) :
    List (Nat × ObjectBuffer) → PlasmaClientState × List ObjectBuffer
  | [] => (s, [])
  | (id, prev) :: rest =>
    let r := getOne s id prev
    let r' := getLoop r.1 rest
    (r'.1, r.2 :: r'.2)

/-- Modelled from the spec (§4.6 Get): blocking and the wall-clock
deadline are abstracted — an object is ready by the deadline exactly
when the store holds it sealed (or this client already uses it); the
`timeout_ms` argument does not affect which slots are filled in this
single-client model. `out` is the caller's output array before the
call. -/
def Get (s : PlasmaClientState) (ids : List Nat) (timeout_ms : Int)
    (out : List ObjectBuffer) :
    Option (PlasmaClientState × List ObjectBuffer × OpStatus) :=
  if s.connected = false then some (s, out, .staterr)
  else
    let r := getLoop s (ids.zip out)
    some (r.1, r.2, .ok)

/-- Modelled from the spec (§4.7 Disconnect, `client.h` line 235): flush
the release history fully, close the sockets, unmap all regions and
clear the local tables. The store keeps its objects. -/
def Disconnect (s : PlasmaClientState) :
    Option (PlasmaClientState × OpStatus) :=
  if s.connected = false then some (s, .staterr)
  else
    match flushAllLoop s.release_history.length s with
    | none => none
    | some s' =>
      some ({ s' with connected := false, manager_conn := -1,
                      mmap_table := [], objects_in_use := [],
                      release_history := [], in_use_object_bytes := 0 },
        .ok)

/-- `PlasmaClient::get_manager_fd` (`client.h` lines 324–328): the file
descriptor of the manager connection, `-1` when there is none; a `const`
accessor, so it is a pure function of the state. -/
def get_manager_fd (s : PlasmaClientState) : Int := s.manager_conn

/-! ## Connect (spec §4.7) -/

/-- Modelled from the spec (§4.7 Connect, `client.h` lines 89–103): the
declared default argument is `num_retries = -1`, documented as "default
50"; a negative request selects the default of 50 attempts. -/
def resolveNumRetries (num_retries : Int) : Nat :=
  if num_retries < 0 then 50 else num_retries.toNat

/-- Modelled from the spec (§4.7 Connect): attempt to open the store
socket up to `num_retries` times (with bounded backoff between attempts,
whose timing is abstracted); `succeeds n` tells whether the `n`-th
attempt connects. Returns the index of the first successful attempt. -/
def connectAttempts (succeeds : Nat → Bool) (num_retries : Nat) :
    Option Nat :=
  (List.range num_retries).find? succeeds

/-- Modelled from the spec (§4.7 Connect, `client.h` lines 89–103): open
the store socket with retries; connect to the manager socket exactly
when `manager_socket_name` is non-empty (`mfd` models the descriptor the
OS would hand out); retrieve `store_capacity` in the handshake;
initialise all tables empty. `store0`/`next_fd0` model the store's
pre-existing contents. -/
def Connect (succeeds : Nat → Bool) (store_socket_name : String)
    (manager_socket_name : String) (release_delay : Nat)
    (num_retries : Int) (mfd : Nat) (capacity : Nat)
    (store0 : List (Nat × StoreEntry)) (next_fd0 : Nat) :
    Option PlasmaClientState :=
  match connectAttempts succeeds (resolveNumRetries num_retries) with
  | none => none
  | some _ =>
    some { connected := true,
           manager_conn := if manager_socket_name = "" then -1 else (mfd : Int),
           mmap_table := [],
           objects_in_use := [],
           release_history := [],
           in_use_object_bytes := 0,
           release_delay := release_delay,
           store_capacity := capacity,
           store := store0,
           next_fd := next_fd0 }

/-! ## The public-operation step relation -/

/-- One public operation of the connected client (the operations named by
the lifecycle controller, spec §4.5/§4.7). -/
inductive Op where
  | create (id : Nat) (data meta : List Nat)
  | seal (id : Nat)
  | abort (id : Nat)
  | get (ids : List Nat) (timeout_ms : Int) (out : List ObjectBuffer)
  | release (id : Nat)
  | delete (id : Nat)
  | disconnect
  deriving Repr

/-- Execute one public operation; `none` models a fatal invariant
violation aborting the process (spec §7), while per-call errors return
the unchanged state. -/
def step (s : PlasmaClientState) : Op → Option PlasmaClientState
  | .create id data meta => (Create s id data meta).map Prod.fst
  | .seal id => (Seal s id).map Prod.fst
  | .abort id => (Abort s id).map Prod.fst
  | .get ids t out => (Get s ids t out).map Prod.fst
  | .release id => (Release s id).map Prod.fst
  | .delete id => (Delete s id).map Prod.fst
  | .disconnect => (Disconnect s).map Prod.fst

/-- Well-formedness of the modelled store contents handed to a freshly
connected client: distinct object ids, and mapped-file identifiers below
the store's fresh-descriptor counter. -/
def StoreWF (st : List (Nat × StoreEntry)) (nfd : Nat) : Prop :=
  keysNodup st ∧ ∀ p ∈ st, p.2.fd < nfd

instance (st : List (Nat × StoreEntry)) (nfd : Nat) :
    Decidable (StoreWF st nfd) := by
  unfold StoreWF; infer_instance

/-- States reachable from a freshly connected client by public
operations. -/
inductive Reachable : PlasmaClientState → Prop where
  | init (succeeds : Nat → Bool) (sname mname : String) (delay : Nat)
      (nr : Int) (mfd : Nat) (cap : Nat) (store0 : List (Nat × StoreEntry))
      (nfd : Nat) (s : PlasmaClientState) :
      StoreWF store0 nfd →
      Connect succeeds sname mname delay nr mfd cap store0 nfd = some s →
      Reachable s
  | next (s s' : PlasmaClientState) (op : Op) :
      Reachable s → step s op = some s' → Reachable s'

/-! ## Invariants (spec §3, I1–I5) -/

/-- (I1) Every object in the in-use table has a valid mmap-table entry
for its `store_fd`. -/
def Inv1 (s : PlasmaClientState) : Prop :=
  ∀ p ∈ s.objects_in_use, (alookup p.2.object.store_fd s.mmap_table).isSome

/-- (I2) The `count` of each mmap-table entry equals the number of
in-use-table entries whose `PlasmaObject.store_fd` refers to it. -/
def Inv2 (s : PlasmaClientState) : Prop :=
  ∀ p ∈ s.mmap_table, p.2.count = (countFd p.1 s.objects_in_use : Int)

/-- (I3) Every id in the release history appears in the in-use table
with `local_refs = 0`. -/
def Inv3 (s : PlasmaClientState) : Prop :=
  ∀ id ∈ s.release_history,
    ∃ p ∈ s.objects_in_use, p.1 = id ∧ p.2.local_refs = 0

/-- (I4) No id appears in the release history twice. -/
def Inv4 (s : PlasmaClientState) : Prop :=
  s.release_history.Nodup

/-- (I5) An unsealed in-use object has exactly one reference (the
creator's) and is in no release-history entry. -/
def Inv5 (s : PlasmaClientState) : Prop :=
  ∀ p ∈ s.objects_in_use, p.2.is_sealed = false →
    p.2.local_refs = 1 ∧ p.1 ∉ s.release_history

/-- Internal well-formedness carried through the induction: distinct
keys in all three tables, zero-reference objects are queued, the byte
counter sums the history, in-use objects exist at the store, and all
known descriptors are below the store's fresh-descriptor counter. -/
def WFaux (s : PlasmaClientState) : Prop :=
  keysNodup s.mmap_table ∧ keysNodup s.objects_in_use ∧ keysNodup s.store ∧
  (∀ p ∈ s.objects_in_use, p.2.local_refs = 0 → p.1 ∈ s.release_history) ∧
  s.in_use_object_bytes = histBytes s ∧
  (∀ p ∈ s.objects_in_use, (alookup p.1 s.store).isSome) ∧
  (∀ p ∈ s.mmap_table, p.1 < s.next_fd) ∧
  (∀ p ∈ s.store, p.2.fd < s.next_fd)

/-- The inductive invariant: internal well-formedness plus I1–I5. -/
def WF (s : PlasmaClientState) : Prop :=
  WFaux s ∧ Inv1 s ∧ Inv2 s ∧ Inv3 s ∧ Inv4 s ∧ Inv5 s

instance (s : PlasmaClientState) : Decidable (Inv1 s) := by
  unfold Inv1; infer_instance

instance (s : PlasmaClientState) : Decidable (Inv2 s) := by
  unfold Inv2; infer_instance

instance (s : PlasmaClientState) : Decidable (Inv3 s) := by
  unfold Inv3; infer_instance

instance (s : PlasmaClientState) : Decidable (Inv4 s) := by
  unfold Inv4; infer_instance

instance (s : PlasmaClientState) : Decidable (Inv5 s) := by
  unfold Inv5; infer_instance

instance (s : PlasmaClientState) : Decidable (WFaux s) := by
  unfold WFaux; infer_instance

instance (s : PlasmaClientState) : Decidable (WF s) := by
  unfold WF; infer_instance

/-! ## Association-list lemmas -/

theorem aerase_eq_filter (k : Nat) (l : List (Nat × α)) :
    aerase k l = l.filter (fun p => p.1 ≠ k) := by
  induction l with
  | nil => rfl
  | cons p t ih =>
    obtain ⟨k', v⟩ := p
    by_cases h : k' = k
    · subst h
      simp [aerase, List.filter_cons, ih]
    · simp [aerase, List.filter_cons, h, ih]

theorem mem_aerase {k : Nat} {l : List (Nat × α)} {p : Nat × α} :
    p ∈ aerase k l ↔ p ∈ l ∧ p.1 ≠ k := by
  rw [aerase_eq_filter]
  simp [List.mem_filter]

theorem alookup_eq_none {k : Nat} {l : List (Nat × α)} :
    alookup k l = none ↔ k ∉ l.map Prod.fst := by
  induction l with
  | nil => simp [alookup]
  | cons p t ih =>
    obtain ⟨k', v⟩ := p
    by_cases h : k' = k
    · subst h; simp [alookup]
    · simp only [alookup, h, if_false, List.map_cons, List.mem_cons]
      rw [ih]
      constructor
      · intro hn hc
        rcases hc with hc | hc
        · exact h hc.symm
        · exact hn hc
      · intro hn hc
        exact hn (Or.inr hc)

theorem alookup_isSome {k : Nat} {l : List (Nat × α)} :
    (alookup k l).isSome ↔ k ∈ l.map Prod.fst := by
  rw [← Decidable.not_not (p := k ∈ l.map Prod.fst), ← alookup_eq_none]
  cases alookup k l <;> simp

theorem mem_of_alookup {k : Nat} {v : α} {l : List (Nat × α)}
    (h : alookup k l = some v) : (k, v) ∈ l := by
  induction l with
  | nil => simp [alookup] at h
  | cons p t ih =>
    obtain ⟨k', v'⟩ := p
    by_cases hk : k' = k
    · subst hk
      simp [alookup] at h
      simp [h]
    · simp [alookup, hk] at h
      exact List.mem_cons_of_mem _ (ih h)

theorem alookup_of_mem {k : Nat} {v : α} {l : List (Nat × α)}
    (hn : keysNodup l) (h : (k, v) ∈ l) : alookup k l = some v := by
  induction l with
  | nil => simp at h
  | cons p t ih =>
    obtain ⟨k', v'⟩ := p
    rw [keysNodup, List.map_cons, List.nodup_cons] at hn
    rcases List.mem_cons.mp h with h1 | h1
    · obtain ⟨rfl, rfl⟩ := Prod.mk.injEq .. ▸ h1
      simp [alookup]
    · have hk : k' ≠ k := by
        rintro rfl
        exact hn.1 (List.mem_map.mpr ⟨(k', v), h1, rfl⟩)
      simp [alookup, hk]
      exact ih hn.2 h1

theorem alookup_mem_iff {k : Nat} {v : α} {l : List (Nat × α)}
    (hn : keysNodup l) : alookup k l = some v ↔ (k, v) ∈ l :=
  ⟨mem_of_alookup, alookup_of_mem hn⟩

theorem aerase_of_not_mem {k : Nat} {l : List (Nat × α)}
    (h : k ∉ l.map Prod.fst) : aerase k l = l := by
  induction l with
  | nil => rfl
  | cons p t ih =>
    obtain ⟨k', v⟩ := p
    simp only [List.map_cons, List.mem_cons] at h
    push_neg at h
    have h1 : ¬k' = k := fun hh => h.1 hh.symm
    simp [aerase, h1, ih h.2]

theorem alookup_aerase (k k' : Nat) (l : List (Nat × α)) :
    alookup k' (aerase k l) = if k = k' then none else alookup k' l := by
  induction l with
  | nil => simp [aerase, alookup]
  | cons p t ih =>
    obtain ⟨k'', v⟩ := p
    by_cases h : k'' = k
    · subst h
      by_cases h2 : k'' = k'
      · subst h2; simp [aerase, ih]
      · simp [aerase, alookup, h2, ih]
    · by_cases h2 : k'' = k'
      · subst h2
        have : k ≠ k'' := fun h' => h h'.symm
        simp [aerase, alookup, h, this]
      · simp [aerase, alookup, h, h2, ih]

theorem alookup_aupdate (k k' : Nat) (v : α) (l : List (Nat × α)) :
    alookup k' (aupdate k v l) = if k = k' then some v else alookup k' l := by
  unfold aupdate
  by_cases h : k = k'
  · subst h; simp [alookup]
  · simp [alookup, h, alookup_aerase]

theorem not_mem_keys_aerase (k : Nat) (l : List (Nat × α)) :
    k ∉ (aerase k l).map Prod.fst := by
  rw [aerase_eq_filter]
  intro hmem
  rcases List.mem_map.mp hmem with ⟨p, hp, hk⟩
  rcases List.mem_filter.mp hp with ⟨_, hne⟩
  rw [hk] at hne
  simp at hne

theorem keysNodup_aerase {l : List (Nat × α)} (hn : keysNodup l)
    (k : Nat) : keysNodup (aerase k l) := by
  rw [keysNodup, aerase_eq_filter]
  exact hn.sublist ((List.filter_sublist l).map Prod.fst)

theorem keysNodup_aupdate {l : List (Nat × α)} (hn : keysNodup l)
    (k : Nat) (v : α) : keysNodup (aupdate k v l) := by
  rw [aupdate, keysNodup, List.map_cons, List.nodup_cons]
  exact ⟨not_mem_keys_aerase k l, keysNodup_aerase hn k⟩

/-! ## `countFd` lemmas -/

theorem countFd_cons (fd : Nat) (p : Nat × ObjectInUseEntry)
    (t : List (Nat × ObjectInUseEntry)) :
    countFd fd (p :: t) =
      (if p.2.object.store_fd = fd then 1 else 0) + countFd fd t := by
  by_cases h : p.2.object.store_fd = fd
  · simp [countFd, List.filter_cons, h, Nat.add_comm]
  · simp [countFd, List.filter_cons, h]

theorem countFd_aupdate (fd k : Nat) (v : ObjectInUseEntry)
    (l : List (Nat × ObjectInUseEntry)) :
    countFd fd (aupdate k v l) =
      (if v.object.store_fd = fd then 1 else 0) + countFd fd (aerase k l) := by
  rw [aupdate, countFd_cons]

theorem countFd_aerase (fd k : Nat) {e : ObjectInUseEntry}
    {l : List (Nat × ObjectInUseEntry)} (hn : keysNodup l)
    (h : alookup k l = some e) :
    countFd fd l =
      (if e.object.store_fd = fd then 1 else 0) + countFd fd (aerase k l) := by
  induction l with
  | nil => simp [alookup] at h
  | cons p t ih =>
    obtain ⟨k', v⟩ := p
    rw [keysNodup, List.map_cons, List.nodup_cons] at hn
    by_cases hk : k' = k
    · subst hk
      simp [alookup] at h
      subst h
      have ht : aerase k' t = t := aerase_of_not_mem hn.1
      simp [aerase, ht, countFd_cons]
    · simp only [alookup, hk, if_false] at h
      rw [countFd_cons, ih hn.2 h]
      simp [aerase, hk, countFd_cons]
      ring

theorem countFd_aerase_none (fd k : Nat)
    {l : List (Nat × ObjectInUseEntry)} (h : alookup k l = none) :
    countFd fd (aerase k l) = countFd fd l := by
  rw [aerase_of_not_mem (alookup_eq_none.mp h)]

theorem countFd_aupdate_fresh (fd k : Nat) (v : ObjectInUseEntry)
    {l : List (Nat × ObjectInUseEntry)} (h : alookup k l = none) :
    countFd fd (aupdate k v l) =
      (if v.object.store_fd = fd then 1 else 0) + countFd fd l := by
  rw [countFd_aupdate, countFd_aerase_none fd k h]

theorem countFd_aupdate_same_fd (fd k : Nat) {v e : ObjectInUseEntry}
    {l : List (Nat × ObjectInUseEntry)} (hn : keysNodup l)
    (h : alookup k l = some e)
    (hfd : v.object.store_fd = e.object.store_fd) :
    countFd fd (aupdate k v l) = countFd fd l := by
  rw [countFd_aupdate, hfd, countFd_aerase fd k hn h]

theorem countFd_pos_of_mem {fd id : Nat} {e : ObjectInUseEntry}
    {l : List (Nat × ObjectInUseEntry)} (h : (id, e) ∈ l)
    (hfd : e.object.store_fd = fd) : 0 < countFd fd l := by
  have : (id, e) ∈ l.filter (fun p => p.2.object.store_fd = fd) :=
    List.mem_filter.mpr ⟨h, by simp [hfd]⟩
  exact List.length_pos.mpr (List.ne_nil_of_mem this)

theorem countFd_eq_zero {fd : Nat} {l : List (Nat × ObjectInUseEntry)}
    (h : ∀ p ∈ l, p.2.object.store_fd ≠ fd) : countFd fd l = 0 := by
  rw [countFd, List.length_eq_zero, List.filter_eq_nil]
  intro p hp
  simp [h p hp]

theorem exists_of_countFd_pos {fd : Nat}
    {l : List (Nat × ObjectInUseEntry)} (h : 0 < countFd fd l) :
    ∃ p ∈ l, p.2.object.store_fd = fd := by
  by_contra hc
  push_neg at hc
  rw [countFd_eq_zero hc] at h
  exact Nat.lt_irrefl 0 h

/-! ## `objBytesIn` and `histBytesIn` lemmas -/

theorem objBytesIn_congr {iu iu' : List (Nat × ObjectInUseEntry)}
    {id : Nat} (h : alookup id iu' = alookup id iu) :
    objBytesIn iu' id = objBytesIn iu id := by
  rw [objBytesIn, objBytesIn, h]

theorem objBytesIn_aupdate_ne {iu : List (Nat × ObjectInUseEntry)}
    {k id : Nat} (v : ObjectInUseEntry) (h : k ≠ id) :
    objBytesIn (aupdate k v iu) id = objBytesIn iu id :=
  objBytesIn_congr (by rw [alookup_aupdate, if_neg h])

theorem objBytesIn_aerase_ne {iu : List (Nat × ObjectInUseEntry)}
    {k id : Nat} (h : k ≠ id) :
    objBytesIn (aerase k iu) id = objBytesIn iu id :=
  objBytesIn_congr (by rw [alookup_aerase, if_neg h])

theorem objBytesIn_aupdate_same_obj {iu : List (Nat × ObjectInUseEntry)}
    {k : Nat} {v e : ObjectInUseEntry} (h : alookup k iu = some e)
    (hobj : v.object = e.object) (id : Nat) :
    objBytesIn (aupdate k v iu) id = objBytesIn iu id := by
  by_cases hk : k = id
  · subst hk
    rw [objBytesIn, objBytesIn, alookup_aupdate, if_pos rfl, h]
    simp [hobj]
  · exact objBytesIn_aupdate_ne v hk

theorem histBytesIn_congr {hist : List Nat}
    {iu iu' : List (Nat × ObjectInUseEntry)}
    (h : ∀ id ∈ hist, objBytesIn iu' id = objBytesIn iu id) :
    histBytesIn hist iu' = histBytesIn hist iu := by
  rw [histBytesIn, histBytesIn, List.map_congr_left h]

theorem histBytesIn_append (hist : List Nat) (id : Nat)
    (iu : List (Nat × ObjectInUseEntry)) :
    histBytesIn (hist ++ [id]) iu = histBytesIn hist iu + objBytesIn iu id := by
  simp [histBytesIn]

theorem histBytesIn_cons (id : Nat) (hist : List Nat)
    (iu : List (Nat × ObjectInUseEntry)) :
    histBytesIn (id :: hist) iu = objBytesIn iu id + histBytesIn hist iu := by
  simp [histBytesIn]

theorem histBytesIn_filter_ne {hist : List Nat} (hn : hist.Nodup)
    {id : Nat} (hmem : id ∈ hist)
    (iu : List (Nat × ObjectInUseEntry)) :
    histBytesIn hist iu =
      objBytesIn iu id + histBytesIn (hist.filter (· ≠ id)) iu := by
  have hperm : List.Perm hist (id :: hist.erase id) :=
    List.perm_cons_erase hmem
  have herase : hist.erase id = hist.filter (· ≠ id) := by
    rw [List.Nodup.erase_eq_filter hn id]
    apply List.filter_congr
    intro x _
    by_cases h : x = id <;> simp [h]
  calc histBytesIn hist iu
      = histBytesIn (id :: hist.erase id) iu := by
        rw [histBytesIn, histBytesIn]
        exact List.Perm.sum_eq (hperm.map (objBytesIn iu))
    _ = objBytesIn iu id + histBytesIn (hist.filter (· ≠ id)) iu := by
        rw [histBytesIn_cons, herase]

/-! ## Invariant preservation: Delete and Seal -/

theorem mem_keys_of_mem {l : List (Nat × α)} {p : Nat × α} (h : p ∈ l) :
    p.1 ∈ l.map Prod.fst :=
  List.mem_map.mpr ⟨p, h, rfl⟩

theorem mem_aupdate {l : List (Nat × α)} {k : Nat} {v : α} {p : Nat × α} :
    p ∈ aupdate k v l ↔ p = (k, v) ∨ (p ∈ l ∧ p.1 ≠ k) := by
  simp [aupdate, List.mem_cons, mem_aerase]

theorem alookup_ne_of_mem_of_none {l : List (Nat × α)} {p : Nat × α}
    {k : Nat} (hp : p ∈ l) (h : alookup k l = none) : p.1 ≠ k := by
  intro hc
  exact (alookup_eq_none.mp h) (hc ▸ mem_keys_of_mem hp)

theorem alookup_self_of_mem {l : List (Nat × α)} {p : Nat × α}
    (hp : p ∈ l) : (alookup p.1 l).isSome :=
  alookup_isSome.mpr (mem_keys_of_mem hp)

theorem Delete_WF {s : PlasmaClientState} {id : Nat}
    {r : PlasmaClientState × OpStatus}
    (hwf : WF s) (h : Delete s id = some r) : WF r.1 := by
  unfold Delete at h
  split at h
  · cases h; exact hwf
  · split at h
    · cases h; exact hwf
    · rename_i se hse
      split at h
      · rename_i hcond
        cases h
        obtain ⟨⟨hm, hu, hs, hq, hb, hst, hfd1, hfd2⟩, h1, h2, h3, h4, h5⟩ :=
          hwf
        have hiuid : alookup id s.objects_in_use = none := by
          simp only [Bool.and_eq_true, Option.isNone_iff_eq_none] at hcond
          exact hcond.2
        refine ⟨⟨hm, hu, keysNodup_aerase hs id, hq, hb, ?_, hfd1, ?_⟩,
          h1, h2, h3, h4, h5⟩
        · intro p hp
          have hne : p.1 ≠ id := by
            intro hc
            have : (alookup p.1 s.objects_in_use).isSome :=
              alookup_isSome.mpr (mem_keys_of_mem hp)
            rw [hc, hiuid] at this
            simp at this
          show (alookup p.1 (aerase id s.store)).isSome
          rw [alookup_aerase, if_neg (fun hc => hne hc.symm)]
          exact hst p hp
        · intro p hp
          exact hfd2 p (mem_aerase.mp hp).1
      · cases h; exact hwf

theorem Seal_WF {s : PlasmaClientState} {id : Nat}
    {r : PlasmaClientState × OpStatus}
    (hwf : WF s) (h : Seal s id = some r) : WF r.1 := by
  unfold Seal at h
  split at h
  · cases h; exact hwf
  · split at h
    · cases h; exact hwf
    · rename_i e he
      split at h
      · cases h; exact hwf
      · rename_i hsealed
        obtain ⟨⟨hm, hu, hs, hq, hb, hst, hfd1, hfd2⟩, h1, h2, h3, h4, h5⟩ :=
          hwf
        have hnotsealed : e.is_sealed = false := by
          revert hsealed; cases e.is_sealed <;> simp
        obtain ⟨hrefs1, hnohist⟩ :=
          h5 (id, e) (mem_of_alookup he) hnotsealed
        obtain ⟨se, hse⟩ := Option.isSome_iff_exists.mp
          (hst (id, e) (mem_of_alookup he))
        simp only [hse] at h
        cases h
        simp only [WF, WFaux, Inv1, Inv2, Inv3, Inv4, Inv5]
        refine ⟨⟨hm, keysNodup_aupdate hu id _, keysNodup_aupdate hs id _,
          ?_, ?_, ?_, hfd1, ?_⟩, ?_, ?_, ?_, h4, ?_⟩
        · -- zero-reference objects are queued
          intro p hp hp0
          rcases mem_aupdate.mp hp with rfl | ⟨hpl, hpne⟩
          · simp at hp0
            rw [hp0] at hrefs1
            cases hrefs1
          · exact hq p hpl hp0
        · -- byte counter
          show s.in_use_object_bytes = histBytesIn s.release_history _
          rw [histBytesIn_congr (fun i _ =>
            objBytesIn_aupdate_same_obj (v := { e with is_sealed := true })
              he rfl i)]
          exact hb
        · -- in-use objects exist at the store
          intro p hp
          rcases mem_aupdate.mp hp with rfl | ⟨hpl, hpne⟩
          · simp [alookup_aupdate]
          · rw [alookup_aupdate, if_neg (fun hc => hpne hc.symm)]
            exact hst p hpl
        · -- store descriptors bounded
          intro p hp
          rcases mem_aupdate.mp hp with rfl | ⟨hpl, hpne⟩
          · exact hfd2 (id, se) (mem_of_alookup hse)
          · exact hfd2 p hpl
        · -- I1
          intro p hp
          rcases mem_aupdate.mp hp with rfl | ⟨hpl, hpne⟩
          · exact h1 (id, e) (mem_of_alookup he)
          · exact h1 p hpl
        · -- I2
          intro p hp
          rw [countFd_aupdate_same_fd (v := { e with is_sealed := true })
            p.1 id hu he rfl]
          exact h2 p hp
        · -- I3
          intro i hi
          obtain ⟨p, hp, hpi, hp0⟩ := h3 i hi
          have hne : p.1 ≠ id := by
            intro hc
            have hl := alookup_of_mem hu hp
            rw [hc, he] at hl
            cases hl
            rw [hrefs1] at hp0
            exact one_ne_zero hp0
          exact ⟨p, mem_aupdate.mpr (Or.inr ⟨hp, hne⟩), hpi, hp0⟩
        · -- I5
          intro p hp hps
          rcases mem_aupdate.mp hp with rfl | ⟨hpl, hpne⟩
          · simp at hps
          · exact h5 p hpl hps

/-! ## Invariant preservation: Create and the in-use/mmap helpers -/

theorem aerase_aerase (k : Nat) (l : List (Nat × α)) :
    aerase k (aerase k l) = aerase k l :=
  aerase_of_not_mem (not_mem_keys_aerase k l)

theorem aupdate_aupdate (k : Nat) (v1 v2 : α) (l : List (Nat × α)) :
    aupdate k v2 (aupdate k v1 l) = aupdate k v2 l := by
  simp [aupdate, aerase, aerase_aerase]

theorem begin_use_present {s : PlasmaClientState} {id : Nat}
    {e : ObjectInUseEntry} (obj : PlasmaObject) (flag : Bool)
    (h : alookup id s.objects_in_use = some e) :
    begin_use s id obj flag =
      { s with objects_in_use := aupdate id { e with local_refs := e.local_refs + 1 } s.objects_in_use } := by
  unfold begin_use
  rw [h]

theorem begin_use_absent {s : PlasmaClientState} {id : Nat}
    (obj : PlasmaObject) (flag : Bool)
    (h : alookup id s.objects_in_use = none) :
    begin_use s id obj flag =
      { s with
          mmap_table := increment_fd
            (lookup_or_mmap s.mmap_table obj.store_fd obj.map_size)
            obj.store_fd,
          objects_in_use := aupdate id ⟨obj, 1, flag⟩ s.objects_in_use } := by
  unfold begin_use
  rw [h]

theorem incr_lookup_or_mmap_none {m : List (Nat × ClientMmapTableEntry)}
    {fd : Nat} (sz : Nat) (h : alookup fd m = none) :
    increment_fd (lookup_or_mmap m fd sz) fd =
      aupdate fd ⟨fd, sz, 1⟩ m := by
  simp [lookup_or_mmap, increment_fd, h, alookup_aupdate, aupdate_aupdate]

theorem incr_lookup_or_mmap_some {m : List (Nat × ClientMmapTableEntry)}
    {fd : Nat} {me : ClientMmapTableEntry} (sz : Nat)
    (h : alookup fd m = some me) :
    increment_fd (lookup_or_mmap m fd sz) fd =
      aupdate fd { me with count := me.count + 1 } m := by
  simp [lookup_or_mmap, increment_fd, h]

theorem countFd_aupdate_entry (fd k : Nat) (obj : PlasmaObject)
    (refs : Nat) (flag : Bool) {l : List (Nat × ObjectInUseEntry)}
    (h : alookup k l = none) :
    countFd fd (aupdate k ⟨obj, refs, flag⟩ l) =
      (if obj.store_fd = fd then 1 else 0) + countFd fd l :=
  countFd_aupdate_fresh fd k ⟨obj, refs, flag⟩ h

theorem countFd_zero_of_unmapped {s : PlasmaClientState} {fd : Nat}
    (h1 : Inv1 s) (hfd : alookup fd s.mmap_table = none) :
    countFd fd s.objects_in_use = 0 := by
  by_contra hc
  obtain ⟨p, hp, hpfd⟩ :=
    exists_of_countFd_pos (Nat.pos_of_ne_zero hc)
  have := h1 p hp
  rw [hpfd, hfd] at this
  simp at this

/-- The common core of `Create` and the fresh path of `Get`: beginning
use of an object absent from the in-use table preserves the inductive
invariant. -/
theorem begin_use_absent_WF {s : PlasmaClientState} {id : Nat}
    {obj : PlasmaObject} {flag : Bool}
    (hwf : WF s)
    (hiu : alookup id s.objects_in_use = none)
    (hstid : (alookup id s.store).isSome)
    (hfdlt : obj.store_fd < s.next_fd) :
    WF (begin_use s id obj flag) := by
  obtain ⟨⟨hm, hu, hs, hq, hb, hst, hfd1, hfd2⟩, h1, h2, h3, h4, h5⟩ := hwf
  have hnohist : id ∉ s.release_history := by
    intro hmem
    obtain ⟨p, hp, hpi, _⟩ := h3 id hmem
    exact alookup_ne_of_mem_of_none hp hiu hpi
  rw [begin_use_absent obj flag hiu]
  simp only [WF, WFaux, Inv1, Inv2, Inv3, Inv4, Inv5]
  have hq' : ∀ p ∈ aupdate id (⟨obj, 1, flag⟩ : ObjectInUseEntry)
      s.objects_in_use, p.2.local_refs = 0 → p.1 ∈ s.release_history := by
    intro p hp hp0
    rcases mem_aupdate.mp hp with rfl | ⟨hpl, hpne⟩
    · simp at hp0
    · exact hq p hpl hp0
  have hb' : s.in_use_object_bytes = histBytesIn s.release_history
      (aupdate id (⟨obj, 1, flag⟩ : ObjectInUseEntry) s.objects_in_use) := by
    rw [histBytesIn_congr (fun i hi =>
      objBytesIn_aupdate_ne _ (fun hc => (hc ▸ hnohist) hi))]
    exact hb
  have hst' : ∀ p ∈ aupdate id (⟨obj, 1, flag⟩ : ObjectInUseEntry)
      s.objects_in_use, (alookup p.1 s.store).isSome := by
    intro p hp
    rcases mem_aupdate.mp hp with rfl | ⟨hpl, hpne⟩
    · exact hstid
    · exact hst p hpl
  have h3' : ∀ i ∈ s.release_history,
      ∃ p ∈ aupdate id (⟨obj, 1, flag⟩ : ObjectInUseEntry)
        s.objects_in_use, p.1 = i ∧ p.2.local_refs = 0 := by
    intro i hi
    obtain ⟨p, hp, hpi, hp0⟩ := h3 i hi
    have hne : p.1 ≠ id := by
      intro hc
      have hid : i = id := by rw [← hpi]; exact hc
      rw [hid] at hi
      exact hnohist hi
    exact ⟨p, mem_aupdate.mpr (Or.inr ⟨hp, hne⟩), hpi, hp0⟩
  have h5' : ∀ p ∈ aupdate id (⟨obj, 1, flag⟩ : ObjectInUseEntry)
      s.objects_in_use, p.2.is_sealed = false →
      p.2.local_refs = 1 ∧ p.1 ∉ s.release_history := by
    intro p hp hps
    rcases mem_aupdate.mp hp with rfl | ⟨hpl, hpne⟩
    · exact ⟨rfl, hnohist⟩
    · exact h5 p hpl hps
  -- the new mmap table in both the fresh and the existing-mapping case
  rcases hmfd : alookup obj.store_fd s.mmap_table with _ | me
  -- fresh mapping
  · rw [incr_lookup_or_mmap_none obj.map_size hmfd]
    have hcnt0 : countFd obj.store_fd s.objects_in_use = 0 :=
      countFd_zero_of_unmapped h1 hmfd
    refine ⟨⟨keysNodup_aupdate hm _ _, keysNodup_aupdate hu _ _, hs,
      hq', hb', hst', ?_, hfd2⟩, ?_, ?_, h3', h4, h5'⟩
    · intro p hp
      rcases mem_aupdate.mp hp with rfl | ⟨hpl, hpne⟩
      · exact hfdlt
      · exact hfd1 p hpl
    · intro p hp
      rcases mem_aupdate.mp hp with rfl | ⟨hpl, hpne⟩
      · simp [alookup_aupdate]
      · rw [alookup_aupdate]
        split
        · simp
        · exact h1 p hpl
    · intro p hp
      rcases mem_aupdate.mp hp with rfl | ⟨hpl, hpne⟩
      · rw [countFd_aupdate_entry _ id _ _ _ hiu]
        simp [hcnt0]
      · rw [countFd_aupdate_entry _ id _ _ _ hiu,
          if_neg (fun hc => hpne hc.symm)]
        simpa using h2 p hpl
  -- existing mapping
  · rw [incr_lookup_or_mmap_some obj.map_size hmfd]
    refine ⟨⟨keysNodup_aupdate hm _ _, keysNodup_aupdate hu _ _, hs,
      hq', hb', hst', ?_, hfd2⟩, ?_, ?_, h3', h4, h5'⟩
    · intro p hp
      rcases mem_aupdate.mp hp with rfl | ⟨hpl, hpne⟩
      · exact hfdlt
      · exact hfd1 p hpl
    · intro p hp
      rcases mem_aupdate.mp hp with rfl | ⟨hpl, hpne⟩
      · simp [alookup_aupdate]
      · rw [alookup_aupdate]
        split
        · simp
        · exact h1 p hpl
    · intro p hp
      rcases mem_aupdate.mp hp with rfl | ⟨hpl, hpne⟩
      · rw [countFd_aupdate_entry _ id _ _ _ hiu, if_pos rfl]
        have hme := h2 (obj.store_fd, me) (mem_of_alookup hmfd)
        simp only at hme ⊢
        rw [hme]
        push_cast
        ring
      · rw [countFd_aupdate_entry _ id _ _ _ hiu,
          if_neg (fun hc => hpne hc.symm)]
        simpa using h2 p hpl

theorem Create_WF {s : PlasmaClientState} {id : Nat} {data meta : List Nat}
    {r : PlasmaClientState × OpStatus}
    (hwf : WF s) (h : Create s id data meta = some r) : WF r.1 := by
  unfold Create at h
  split at h
  · cases h; exact hwf
  · split at h
    · cases h; exact hwf
    · rename_i hstore
      cases h
      obtain ⟨⟨hm, hu, hs, hq, hb, hst, hfd1, hfd2⟩, h1, h2, h3, h4, h5⟩ :=
        hwf
      have hstnone : alookup id s.store = none := by
        revert hstore
        cases alookup id s.store <;> simp
      have hiu : alookup id s.objects_in_use = none := by
        rcases hx : alookup id s.objects_in_use with _ | e
        · rfl
        · have := hst (id, e) (mem_of_alookup hx)
          rw [hstnone] at this
          simp at this
      apply begin_use_absent_WF
      · -- WF of the state with the new store entry and bumped next_fd
        refine ⟨⟨hm, hu, keysNodup_aupdate hs _ _, hq, hb, ?_, ?_, ?_⟩,
          h1, h2, h3, h4, h5⟩
        · intro p hp
          show (alookup p.1 (aupdate id ⟨s.next_fd, data, meta, false⟩
            s.store)).isSome
          rw [alookup_aupdate]
          split
          · simp
          · exact hst p hp
        · intro p hp
          exact Nat.lt_succ_of_lt (hfd1 p hp)
        · intro p hp
          rcases mem_aupdate.mp hp with rfl | ⟨hpl, hpne⟩
          · exact Nat.lt_succ_self _
          · exact Nat.lt_succ_of_lt (hfd2 p hpl)
      · exact hiu
      · show (alookup id (aupdate id ⟨s.next_fd, data, meta, false⟩
          s.store)).isSome
        rw [alookup_aupdate, if_pos rfl]
        simp
      · exact Nat.lt_succ_self _

/-! ## Invariant preservation: removing an in-use entry -/

/-- Removing an in-use entry and decrementing its mmap entry: the
decrement never hits the fatal branch when I2 holds, and the resulting
mmap table matches the shrunken in-use table. -/
theorem decrement_after_remove {s : PlasmaClientState} {oid : Nat}
    {e : ObjectInUseEntry}
    (hm : keysNodup s.mmap_table) (hu : keysNodup s.objects_in_use)
    (h1 : Inv1 s) (h2 : Inv2 s)
    (he : alookup oid s.objects_in_use = some e)
    (hfd1 : ∀ p ∈ s.mmap_table, p.1 < s.next_fd) :
    ∃ t, decrement_fd s.mmap_table e.object.store_fd = some t ∧
      keysNodup t ∧
      (∀ p ∈ aerase oid s.objects_in_use,
        (alookup p.2.object.store_fd t).isSome) ∧
      (∀ p ∈ t, p.2.count =
        (countFd p.1 (aerase oid s.objects_in_use) : Int)) ∧
      (∀ p ∈ t, p.1 < s.next_fd) := by
  obtain ⟨me, hme⟩ := Option.isSome_iff_exists.mp
    (h1 (oid, e) (mem_of_alookup he))
  have hcount : me.count = (countFd e.object.store_fd s.objects_in_use : Int) :=
    h2 (e.object.store_fd, me) (mem_of_alookup hme)
  have hsplit : countFd e.object.store_fd s.objects_in_use =
      1 + countFd e.object.store_fd (aerase oid s.objects_in_use) := by
    have := countFd_aerase e.object.store_fd oid hu he
    rwa [if_pos rfl] at this
  have hpos : (1 : Int) ≤ me.count := by
    rw [hcount, hsplit]
    push_cast
    omega
  unfold decrement_fd
  simp only [hme]
  rw [if_neg (by omega)]
  by_cases hone : me.count = 1
  -- count reaches zero: the region is unmapped and the entry removed
  · rw [if_pos hone]
    have hzero : countFd e.object.store_fd (aerase oid s.objects_in_use)
        = 0 := by
      rw [hcount, hsplit] at hone
      push_cast at hone
      omega
    refine ⟨_, rfl, keysNodup_aerase hm _, ?_, ?_, ?_⟩
    · intro p hp
      have hpm := (mem_aerase.mp hp).1
      rw [alookup_aerase]
      split
      · rename_i hfd
        exfalso
        have : 0 < countFd e.object.store_fd (aerase oid s.objects_in_use) :=
          countFd_pos_of_mem hp hfd.symm
        omega
      · exact h1 p hpm
    · intro p hp
      obtain ⟨hpm, hpne⟩ := mem_aerase.mp hp
      have := countFd_aerase p.1 oid hu he
      rw [if_neg (fun hc => hpne hc.symm)] at this
      rw [h2 p hpm, this]
      simp
    · intro p hp
      exact hfd1 p (mem_aerase.mp hp).1
  -- count stays positive: only the counter is decremented
  · rw [if_neg hone]
    refine ⟨_, rfl, keysNodup_aupdate hm _ _, ?_, ?_, ?_⟩
    · intro p hp
      have hpm := (mem_aerase.mp hp).1
      rw [alookup_aupdate]
      split
      · simp
      · exact h1 p hpm
    · intro p hp
      rcases mem_aupdate.mp hp with rfl | ⟨hpl, hpne⟩
      · simp only
        rw [hcount, hsplit]
        push_cast
        ring
      · have := countFd_aerase p.1 oid hu he
        rw [if_neg (fun hc => hpne hc.symm)] at this
        rw [h2 p hpl, this]
        simp
    · intro p hp
      rcases mem_aupdate.mp hp with rfl | ⟨hpl, hpne⟩
      · exact hfd1 (e.object.store_fd, me) (mem_of_alookup hme)
      · exact hfd1 p hpl

theorem Abort_total {s : PlasmaClientState} (id : Nat) (hwf : WF s) :
    ∃ r, Abort s id = some r ∧ WF r.1 := by
  obtain ⟨⟨hm, hu, hs, hq, hb, hst, hfd1, hfd2⟩, h1, h2, h3, h4, h5⟩ := hwf
  have hwf' : WF s := ⟨⟨hm, hu, hs, hq, hb, hst, hfd1, hfd2⟩,
    h1, h2, h3, h4, h5⟩
  by_cases hc : s.connected = false
  · exact ⟨(s, .staterr), by simp [Abort, hc], hwf'⟩
  rcases hx : alookup id s.objects_in_use with _ | e
  · exact ⟨(s, .staterr), by simp [Abort, hc, hx], hwf'⟩
  by_cases hsl : e.is_sealed
  · exact ⟨(s, .staterr), by simp [Abort, hc, hx, hsl], hwf'⟩
  by_cases hr : e.local_refs = 1
  case neg => exact ⟨(s, .staterr), by simp [Abort, hc, hx, hsl, hr], hwf'⟩
  case pos =>
    have hnotsealed : e.is_sealed = false := by
      revert hsl; cases e.is_sealed <;> simp
    have hnohist : id ∉ s.release_history :=
      (h5 (id, e) (mem_of_alookup hx) hnotsealed).2
    obtain ⟨t, ht, htn, hti1, hti2, htfd⟩ :=
      decrement_after_remove hm hu h1 h2 hx hfd1
    refine ⟨({ s with mmap_table := t, objects_in_use := aerase id s.objects_in_use, store := aerase id s.store }, .ok),
      by simp [Abort, hc, hx, hsl, hr, ht], ⟨htn, keysNodup_aerase hu _,
      keysNodup_aerase hs _, ?_, ?_, ?_, htfd, ?_⟩,
      hti1, hti2, ?_, h4, ?_⟩
    · intro p hp hp0
      exact hq p (mem_aerase.mp hp).1 hp0
    · show s.in_use_object_bytes =
        histBytesIn s.release_history (aerase id s.objects_in_use)
      rw [histBytesIn_congr (fun i hi =>
        objBytesIn_aerase_ne (fun hc2 => (hc2 ▸ hnohist) hi))]
      exact hb
    · intro p hp
      obtain ⟨hpm, hpne⟩ := mem_aerase.mp hp
      rw [alookup_aerase, if_neg (fun hc2 => hpne hc2.symm)]
      exact hst p hpm
    · intro p hp
      exact hfd2 p (mem_aerase.mp hp).1
    · intro i hi
      obtain ⟨p, hp, hpi, hp0⟩ := h3 i hi
      have hne : p.1 ≠ id := by
        intro hc2
        have hid : i = id := by rw [← hpi]; exact hc2
        rw [hid] at hi
        exact hnohist hi
      exact ⟨p, mem_aerase.mpr ⟨hp, hne⟩, hpi, hp0⟩
    · intro p hp hps
      obtain ⟨hpm, _⟩ := mem_aerase.mp hp
      exact h5 p hpm hps

/-- One iteration of the flush policy: when the invariant holds and the
history starts with `oid`, popping it and performing its release
succeeds and preserves the invariant. -/
theorem flushStep_WF {s : PlasmaClientState} {oid : Nat} {rest : List Nat}
    (hwf : WF s) (hh : s.release_history = oid :: rest) :
    ∃ s', PerformRelease { s with release_history := rest } oid = some s' ∧
      WF s' ∧ s'.release_history = rest ∧
      s'.objects_in_use = aerase oid s.objects_in_use ∧
      alookup oid s'.objects_in_use = none ∧
      s'.store = s.store ∧ s'.connected = s.connected ∧
      s'.release_delay = s.release_delay ∧
      s'.store_capacity = s.store_capacity ∧
      s'.manager_conn = s.manager_conn ∧ s'.next_fd = s.next_fd := by
  obtain ⟨⟨hm, hu, hs, hq, hb, hst, hfd1, hfd2⟩, h1, h2, h3, h4, h5⟩ := hwf
  have hoid : oid ∈ s.release_history := by rw [hh]; exact List.mem_cons_self _ _
  obtain ⟨p0, hp0, hp0i, hp00⟩ := h3 oid hoid
  have he : alookup oid s.objects_in_use = some p0.2 :=
    hp0i ▸ alookup_of_mem hu hp0
  have hnodup : (oid :: rest).Nodup := hh ▸ h4
  have hoidrest : oid ∉ rest := (List.nodup_cons.mp hnodup).1
  obtain ⟨t, ht, htn, hti1, hti2, htfd⟩ :=
    decrement_after_remove hm hu h1 h2 he hfd1
  unfold PerformRelease
  simp only [he, ht]
  refine ⟨_, rfl, ⟨⟨htn, keysNodup_aerase hu _, hs, ?_, ?_, ?_, htfd, hfd2⟩,
    hti1, hti2, ?_, (List.nodup_cons.mp hnodup).2, ?_⟩,
    rfl, rfl, by rw [alookup_aerase, if_pos rfl], rfl, rfl, rfl, rfl, rfl,
    rfl⟩
  · intro p hp hp2
    obtain ⟨hpm, hpne⟩ := mem_aerase.mp hp
    have := hq p hpm hp2
    rw [hh] at this
    rcases List.mem_cons.mp this with hc | hc
    · exact absurd hc hpne
    · exact hc
  · show s.in_use_object_bytes -
        (p0.2.object.data_size + p0.2.object.metadata_size) =
      histBytesIn rest (aerase oid s.objects_in_use)
    have hcongr : histBytesIn rest (aerase oid s.objects_in_use) =
        histBytesIn rest s.objects_in_use :=
      histBytesIn_congr (fun i hi =>
        objBytesIn_aerase_ne (fun hc2 => (hc2 ▸ hoidrest) hi))
    have hsum : s.in_use_object_bytes =
        objBytesIn s.objects_in_use oid + histBytesIn rest s.objects_in_use := by
      rw [hb, histBytes, hh, histBytesIn_cons]
    have hob : objBytesIn s.objects_in_use oid =
        p0.2.object.data_size + p0.2.object.metadata_size := by
      rw [objBytesIn, he]
    rw [hcongr, hsum, hob]
    omega
  · intro p hp
    exact hst p (mem_aerase.mp hp).1
  · intro i hi
    have hine : i ≠ oid := by
      intro hc2
      rw [hc2] at hi
      exact hoidrest hi
    obtain ⟨p, hp, hpi, hp2⟩ := h3 i (by rw [hh]; exact List.mem_cons_of_mem _ hi)
    have hne : p.1 ≠ oid := by
      rw [hpi]; exact hine
    exact ⟨p, mem_aerase.mpr ⟨hp, hne⟩, hpi, hp2⟩
  · intro p hp hps
    obtain ⟨hpm, _⟩ := mem_aerase.mp hp
    obtain ⟨hr1, hnh⟩ := h5 p hpm hps
    refine ⟨hr1, fun hc2 => hnh ?_⟩
    rw [hh]
    exact List.mem_cons_of_mem _ hc2

theorem flushLoop_succ (fuel : Nat) (s : PlasmaClientState) :
    flushLoop (fuel + 1) s =
      if NeedFlush s then
        match s.release_history with
        | [] => some s
        | oid :: rest =>
          match PerformRelease { s with release_history := rest } oid with
          | none => none
          | some s' => flushLoop fuel s'
      else some s := rfl

/-- The flush loop: runs to quiescence, only removes a prefix of the
history, never adds in-use entries, and preserves the invariant and all
fields the flush does not touch. -/
theorem flushLoop_spec (fuel : Nat) :
    ∀ {s : PlasmaClientState}, WF s →
    ∃ s', flushLoop fuel s = some s' ∧ WF s' ∧
      (∃ k, s'.release_history = s.release_history.drop k ∧
        (∀ i ∈ s.release_history.take k,
          alookup i s'.objects_in_use = none)) ∧
      (∀ i e', alookup i s'.objects_in_use = some e' →
        alookup i s.objects_in_use = some e') ∧
      (¬NeedFlush s → s' = s) ∧
      (s.release_history.length ≤ fuel → ¬NeedFlush s') ∧
      s'.store = s.store ∧ s'.connected = s.connected ∧
      s'.release_delay = s.release_delay ∧
      s'.store_capacity = s.store_capacity ∧
      s'.manager_conn = s.manager_conn ∧ s'.next_fd = s.next_fd := by
  induction fuel with
  | zero =>
    intro s hwf
    refine ⟨s, rfl, hwf, ⟨0, by simp, by simp⟩, fun i e' h => h,
      fun _ => rfl, ?_, rfl, rfl, rfl, rfl, rfl, rfl⟩
    intro hlen
    have hnil : s.release_history = [] :=
      List.length_eq_zero.mp (Nat.le_zero.mp hlen)
    have hz : s.in_use_object_bytes = 0 := by
      rw [hwf.1.2.2.2.2.1, histBytes, hnil, histBytesIn]
      simp
    intro hnf
    rcases hnf with hnf | hnf
    · rw [hnil] at hnf
      simp at hnf
    · rw [hz] at hnf
      exact Nat.not_lt_zero _ hnf
  | succ fuel ih =>
    intro s hwf
    by_cases hnf : NeedFlush s
    · rcases hh : s.release_history with _ | ⟨oid, rest⟩
      · -- impossible: an empty history never needs a flush
        exfalso
        have hz : s.in_use_object_bytes = 0 := by
          rw [hwf.1.2.2.2.2.1, histBytes, hh, histBytesIn]
          simp
        rcases hnf with hnf | hnf
        · rw [hh] at hnf
          simp at hnf
        · rw [hz] at hnf
          exact Nat.not_lt_zero _ hnf
      · obtain ⟨s1, hps, hwf1, hh1, hiu1, hnone1, hst1, hc1, hrd1, hcap1,
          hmc1, hnfd1⟩ := flushStep_WF hwf hh
        obtain ⟨s2, hfl, hwf2, ⟨k1, hh2, htake2⟩, hmono2, _, hquiet2,
          hst2, hc2, hrd2, hcap2, hmc2, hnfd2⟩ := ih hwf1
        have hstep : flushLoop (fuel + 1) s = flushLoop fuel s1 := by
          rw [flushLoop_succ, if_pos hnf, hh]
          simp only [hps]
        refine ⟨s2, by rw [hstep]; exact hfl, hwf2, ⟨k1 + 1, ?_, ?_⟩,
          ?_, fun hc => absurd hnf hc, ?_,
          by rw [hst2, hst1], by rw [hc2, hc1], by rw [hrd2, hrd1],
          by rw [hcap2, hcap1], by rw [hmc2, hmc1], by rw [hnfd2, hnfd1]⟩
        · rw [List.drop_succ_cons, hh2, hh1]
        · intro i hi
          rw [List.take_succ_cons] at hi
          rcases List.mem_cons.mp hi with rfl | hi
          · rcases hx : alookup i s2.objects_in_use with _ | e'
            · rfl
            · have := hmono2 i e' hx
              rw [hnone1] at this
              cases this
          · rw [hh1] at htake2
            exact htake2 i hi
        · intro i e' hx
          have h1x := hmono2 i e' hx
          rw [hiu1, alookup_aerase] at h1x
          split at h1x
          · cases h1x
          · exact h1x
        · intro hlen
          apply hquiet2
          rw [hh1]
          simp at hlen
          omega
    · refine ⟨s, ?_, hwf, ⟨0, by simp, by simp⟩, fun i e' h => h,
        fun _ => rfl, fun _ => hnf, rfl, rfl, rfl, rfl, rfl, rfl⟩
      unfold flushLoop
      rw [if_neg hnf]

theorem notin_history_of_refs_pos {s : PlasmaClientState} {id : Nat}
    {e : ObjectInUseEntry} (hwf : WF s)
    (he : alookup id s.objects_in_use = some e)
    (hr : e.local_refs ≠ 0) : id ∉ s.release_history := by
  intro hmem
  obtain ⟨p, hp, hpi, hp0⟩ := hwf.2.2.2.1 id hmem
  have := alookup_of_mem hwf.1.2.1 hp
  rw [hpi, he] at this
  cases this
  exact hr hp0

theorem enqueue_WF {s : PlasmaClientState} {id : Nat}
    {e : ObjectInUseEntry} (hwf : WF s)
    (he : alookup id s.objects_in_use = some e)
    (hsl : e.is_sealed = true) (hr : e.local_refs = 1) :
    WF (enqueueState s id e) := by
  obtain ⟨⟨hm, hu, hs, hq, hb, hst, hfd1, hfd2⟩, h1, h2, h3, h4, h5⟩ := hwf
  have hnohist : id ∉ s.release_history :=
    notin_history_of_refs_pos
      ⟨⟨hm, hu, hs, hq, hb, hst, hfd1, hfd2⟩, h1, h2, h3, h4, h5⟩
      he (by rw [hr]; exact one_ne_zero)
  unfold enqueueState
  refine ⟨⟨hm, keysNodup_aupdate hu _ _, hs, ?_, ?_, ?_, hfd1, hfd2⟩,
    ?_, ?_, ?_, ?_, ?_⟩
  · intro p hp hp0
    rcases mem_aupdate.mp hp with rfl | ⟨hpl, hpne⟩
    · exact List.mem_append_right _ (List.mem_singleton.mpr rfl)
    · exact List.mem_append_left _ (hq p hpl hp0)
  · show s.in_use_object_bytes + (e.object.data_size + e.object.metadata_size)
      = histBytesIn (s.release_history ++ [id]) _
    rw [histBytesIn_append,
      histBytesIn_congr (fun i hi =>
        objBytesIn_aupdate_ne _ (fun hc => (hc ▸ hnohist) hi))]
    have hid : objBytesIn
        (aupdate id { e with local_refs := 0 } s.objects_in_use) id =
        e.object.data_size + e.object.metadata_size := by
      rw [objBytesIn, alookup_aupdate, if_pos rfl]
    rw [hid, hb]
    rfl
  · intro p hp
    rcases mem_aupdate.mp hp with rfl | ⟨hpl, hpne⟩
    · exact hst (id, e) (mem_of_alookup he)
    · exact hst p hpl
  · intro p hp
    rcases mem_aupdate.mp hp with rfl | ⟨hpl, hpne⟩
    · exact h1 (id, e) (mem_of_alookup he)
    · exact h1 p hpl
  · intro p hp
    rw [countFd_aupdate_same_fd (v := { e with local_refs := 0 })
      p.1 id hu he rfl]
    exact h2 p hp
  · intro i hi
    rcases List.mem_append.mp hi with hi | hi
    · obtain ⟨p, hp, hpi, hp0⟩ := h3 i hi
      have hne : p.1 ≠ id := by
        intro hc
        have hid2 : i = id := by rw [← hpi]; exact hc
        rw [hid2] at hi
        exact hnohist hi
      exact ⟨p, mem_aupdate.mpr (Or.inr ⟨hp, hne⟩), hpi, hp0⟩
    · rw [List.mem_singleton.mp hi]
      exact ⟨(id, { e with local_refs := 0 }),
        mem_aupdate.mpr (Or.inl rfl), rfl, rfl⟩
  · show (s.release_history ++ [id]).Nodup
    rw [List.nodup_append]
    exact ⟨h4, List.nodup_singleton _,
      fun a ha hb2 => hnohist (List.mem_singleton.mp hb2 ▸ ha)⟩
  · intro p hp hps
    rcases mem_aupdate.mp hp with rfl | ⟨hpl, hpne⟩
    · simp only at hps
      rw [hsl] at hps
      cases hps
    · obtain ⟨hr1, hnh⟩ := h5 p hpl hps
      refine ⟨hr1, fun hc => hnh ?_⟩
      rcases List.mem_append.mp hc with hc | hc
      · exact hc
      · exact absurd (List.mem_singleton.mp hc) hpne

theorem Release_total {s : PlasmaClientState} (id : Nat) (hwf : WF s) :
    ∃ r, Release s id = some r ∧ WF r.1 := by
  by_cases hc : s.connected = false
  · exact ⟨(s, .staterr), by simp [Release, hc], hwf⟩
  rcases hx : alookup id s.objects_in_use with _ | e
  · exact ⟨(s, .staterr), by simp [Release, hc, hx], hwf⟩
  by_cases hsl : e.is_sealed = false
  · exact ⟨(s, .staterr), by simp [Release, hc, hx, hsl], hwf⟩
  by_cases h0 : e.local_refs = 0
  · exact ⟨(s, .staterr), by simp [Release, hc, hx, hsl, h0], hwf⟩
  by_cases h1r : e.local_refs = 1
  · have hsl' : e.is_sealed = true := by
      revert hsl; cases e.is_sealed <;> simp
    have hwf1 := enqueue_WF hwf hx hsl' h1r
    obtain ⟨s', hfl, hwf', _⟩ := flushLoop_spec
      (enqueueState s id e).release_history.length hwf1
    refine ⟨(s', .ok), ?_, hwf'⟩
    simp [Release, hc, hx, hsl, h0, h1r, flushReleases, hfl]
  · -- plain decrement: local_refs ≥ 2
    obtain ⟨⟨hm, hu, hs, hq, hb, hst, hfd1, hfd2⟩, h1, h2, h3, h4, h5⟩ := hwf
    have hsl' : e.is_sealed = true := by
      revert hsl; cases e.is_sealed <;> simp
    refine ⟨({ s with objects_in_use := aupdate id { e with local_refs := e.local_refs - 1 } s.objects_in_use }, .ok),
      by simp [Release, hc, hx, hsl, h0, h1r], ⟨hm, keysNodup_aupdate hu _ _,
        hs, ?_, ?_, ?_, hfd1, hfd2⟩, ?_, ?_, ?_, h4, ?_⟩
    · intro p hp hp0
      rcases mem_aupdate.mp hp with rfl | ⟨hpl, hpne⟩
      · simp only at hp0
        omega
      · exact hq p hpl hp0
    · show s.in_use_object_bytes = histBytesIn s.release_history _
      rw [histBytesIn_congr (fun i _ =>
        objBytesIn_aupdate_same_obj
          (v := { e with local_refs := e.local_refs - 1 }) hx rfl i)]
      exact hb
    · intro p hp
      rcases mem_aupdate.mp hp with rfl | ⟨hpl, hpne⟩
      · exact hst (id, e) (mem_of_alookup hx)
      · exact hst p hpl
    · intro p hp
      rcases mem_aupdate.mp hp with rfl | ⟨hpl, hpne⟩
      · exact h1 (id, e) (mem_of_alookup hx)
      · exact h1 p hpl
    · intro p hp
      rw [countFd_aupdate_same_fd
        (v := { e with local_refs := e.local_refs - 1 }) p.1 id hu hx rfl]
      exact h2 p hp
    · intro i hi
      obtain ⟨p, hp, hpi, hp0⟩ := h3 i hi
      have hne : p.1 ≠ id := by
        intro hc2
        have := alookup_of_mem hu hp
        rw [hc2, hx] at this
        cases this
        exact h0 hp0
      exact ⟨p, mem_aupdate.mpr (Or.inr ⟨hp, hne⟩), hpi, hp0⟩
    · intro p hp hps
      rcases mem_aupdate.mp hp with rfl | ⟨hpl, hpne⟩
      · simp only at hps
        rw [hsl'] at hps
        cases hps
      · exact h5 p hpl hps

/-! ## Invariant preservation: Get -/

theorem getOne_WF {s : PlasmaClientState} {id : Nat}
    {prev : ObjectBuffer} (hwf : WF s) : WF (getOne s id prev).1 := by
  unfold getOne
  rcases hx : alookup id s.objects_in_use with _ | e
  · rcases hst0 : alookup id s.store with _ | se
    · exact hwf
    · by_cases hsl : se.sealed
      · simp only [hx, hst0, if_pos hsl]
        exact begin_use_absent_WF hwf hx (by rw [hst0]; rfl)
          (hwf.1.2.2.2.2.2.2.2 (id, se) (mem_of_alookup hst0))
      · simp only [hx, hst0, if_neg hsl]
        exact hwf
  · by_cases hsl : e.is_sealed
    · simp only [hx, if_pos hsl]
      by_cases h0 : e.local_refs = 0
      · -- reclaim from the release history
        rw [if_pos h0]
        obtain ⟨⟨hm, hu, hs, hq, hb, hst, hfd1, hfd2⟩,
          h1, h2, h3, h4, h5⟩ := hwf
        have hidmem : id ∈ s.release_history :=
          hq (id, e) (mem_of_alookup hx) h0
        rw [begin_use_present e.object true (by rw [hx] : alookup id _ = some e)]
        refine ⟨⟨hm, keysNodup_aupdate hu _ _, hs, ?_, ?_, ?_, hfd1, hfd2⟩,
          ?_, ?_, ?_, ?_, ?_⟩
        · intro p hp hp0
          rcases mem_aupdate.mp hp with rfl | ⟨hpl, hpne⟩
          · simp only at hp0
            omega
          · refine List.mem_filter.mpr ⟨hq p hpl hp0, by simp [hpne]⟩
        · show s.in_use_object_bytes -
            (e.object.data_size + e.object.metadata_size) =
            histBytesIn (s.release_history.filter (· ≠ id))
              (aupdate id { e with local_refs := e.local_refs + 1 } s.objects_in_use)
          rw [histBytesIn_congr (fun i hi =>
            objBytesIn_aupdate_ne _ (fun hc => by
              rw [hc] at hi
              simp [List.mem_filter] at hi))]
          have hsplit := histBytesIn_filter_ne h4 hidmem s.objects_in_use
          have hob : objBytesIn s.objects_in_use id =
              e.object.data_size + e.object.metadata_size := by
            rw [objBytesIn, hx]
          rw [hb, histBytes]
          omega
        · intro p hp
          rcases mem_aupdate.mp hp with rfl | ⟨hpl, hpne⟩
          · exact hst (id, e) (mem_of_alookup hx)
          · exact hst p hpl
        · intro p hp
          rcases mem_aupdate.mp hp with rfl | ⟨hpl, hpne⟩
          · exact h1 (id, e) (mem_of_alookup hx)
          · exact h1 p hpl
        · intro p hp
          rw [countFd_aupdate_same_fd
            (v := { e with local_refs := e.local_refs + 1 }) p.1 id hu hx rfl]
          exact h2 p hp
        · intro i hi
          obtain ⟨hih, hine⟩ : i ∈ s.release_history ∧ i ≠ id := by
            have := List.mem_filter.mp hi
            simpa using this
          obtain ⟨p, hp, hpi, hp0⟩ := h3 i hih
          have hne : p.1 ≠ id := by rw [hpi]; exact hine
          exact ⟨p, mem_aupdate.mpr (Or.inr ⟨hp, hne⟩), hpi, hp0⟩
        · exact List.Nodup.filter _ h4
        · intro p hp hps
          rcases mem_aupdate.mp hp with rfl | ⟨hpl, hpne⟩
          · simp only at hps
            rw [hsl] at hps
            cases hps
          · obtain ⟨hr1, hnh⟩ := h5 p hpl hps
            refine ⟨hr1, fun hc => hnh ?_⟩
            exact (List.mem_filter.mp hc).1
      · -- the object is already in use with a positive count
        rw [if_neg h0]
        obtain ⟨⟨hm, hu, hs, hq, hb, hst, hfd1, hfd2⟩,
          h1, h2, h3, h4, h5⟩ := hwf
        rw [begin_use_present e.object true hx]
        refine ⟨⟨hm, keysNodup_aupdate hu _ _, hs, ?_, ?_, ?_, hfd1, hfd2⟩,
          ?_, ?_, ?_, h4, ?_⟩
        · intro p hp hp0
          rcases mem_aupdate.mp hp with rfl | ⟨hpl, hpne⟩
          · simp only at hp0
            omega
          · exact hq p hpl hp0
        · show s.in_use_object_bytes = histBytesIn s.release_history _
          rw [histBytesIn_congr (fun i _ =>
            objBytesIn_aupdate_same_obj
              (v := { e with local_refs := e.local_refs + 1 }) hx rfl i)]
          exact hb
        · intro p hp
          rcases mem_aupdate.mp hp with rfl | ⟨hpl, hpne⟩
          · exact hst (id, e) (mem_of_alookup hx)
          · exact hst p hpl
        · intro p hp
          rcases mem_aupdate.mp hp with rfl | ⟨hpl, hpne⟩
          · exact h1 (id, e) (mem_of_alookup hx)
          · exact h1 p hpl
        · intro p hp
          rw [countFd_aupdate_same_fd
            (v := { e with local_refs := e.local_refs + 1 }) p.1 id hu hx rfl]
          exact h2 p hp
        · intro i hi
          obtain ⟨p, hp, hpi, hp0⟩ := h3 i hi
          have hne : p.1 ≠ id := by
            intro hc2
            have := alookup_of_mem hu hp
            rw [hc2, hx] at this
            cases this
            exact h0 hp0
          exact ⟨p, mem_aupdate.mpr (Or.inr ⟨hp, hne⟩), hpi, hp0⟩
        · intro p hp hps
          rcases mem_aupdate.mp hp with rfl | ⟨hpl, hpne⟩
          · simp only at hps
            rw [hsl] at hps
            cases hps
          · exact h5 p hpl hps
    · simp only [hx, if_neg hsl]
      exact hwf

theorem getLoop_WF {s : PlasmaClientState}
    (l : List (Nat × ObjectBuffer)) (hwf : WF s) : WF (getLoop s l).1 := by
  induction l generalizing s with
  | nil => exact hwf
  | cons p rest ih =>
    unfold getLoop
    exact ih (getOne_WF hwf)

theorem Get_total {s : PlasmaClientState} (ids : List Nat) (t : Int)
    (out : List ObjectBuffer) (hwf : WF s) :
    ∃ r, Get s ids t out = some r ∧ WF r.1 := by
  by_cases hc : s.connected = false
  · exact ⟨(s, out, .staterr), by simp [Get, hc], hwf⟩
  · exact ⟨((getLoop s (ids.zip out)).1, (getLoop s (ids.zip out)).2, .ok),
      by simp [Get, hc], getLoop_WF _ hwf⟩

/-! ## Invariant preservation: Disconnect and the step theorem -/

theorem flushAllLoop_succ (fuel : Nat) (s : PlasmaClientState) :
    flushAllLoop (fuel + 1) s =
      match s.release_history with
      | [] => some s
      | oid :: rest =>
        match PerformRelease { s with release_history := rest } oid with
        | none => none
        | some s' => flushAllLoop fuel s' := rfl

theorem flushAllLoop_spec (fuel : Nat) :
    ∀ {s : PlasmaClientState}, WF s →
    ∃ s', flushAllLoop fuel s = some s' ∧ WF s' ∧
      s'.store = s.store ∧ s'.next_fd = s.next_fd := by
  induction fuel with
  | zero => exact fun hwf => ⟨_, rfl, hwf, rfl, rfl⟩
  | succ fuel ih =>
    intro s hwf
    rcases hh : s.release_history with _ | ⟨oid, rest⟩
    · refine ⟨s, ?_, hwf, rfl, rfl⟩
      simp only [flushAllLoop_succ, hh]
    · obtain ⟨s1, hps, hwf1, _, _, _, hst1, _, _, _, _, hnfd1⟩ :=
        flushStep_WF hwf hh
      obtain ⟨s2, hfl2, hwf2, hst2, hnfd2⟩ := ih hwf1
      refine ⟨s2, ?_, hwf2, by rw [hst2, hst1], by rw [hnfd2, hnfd1]⟩
      simp only [flushAllLoop_succ, hh, hps]
      exact hfl2

theorem Disconnect_total {s : PlasmaClientState} (hwf : WF s) :
    ∃ r, Disconnect s = some r ∧ WF r.1 := by
  by_cases hc : s.connected = false
  · exact ⟨(s, .staterr), by simp [Disconnect, hc], hwf⟩
  · obtain ⟨s', hfl, hwf', hstore', hnfd'⟩ :=
      flushAllLoop_spec s.release_history.length hwf
    refine ⟨({ s' with connected := false, manager_conn := -1, mmap_table := [], objects_in_use := [], release_history := [], in_use_object_bytes := 0 }, .ok),
      by simp [Disconnect, hc, hfl], ?_⟩
    refine ⟨⟨?_, ?_, hwf'.1.2.2.1, ?_, ?_, ?_, ?_, ?_⟩, ?_, ?_, ?_, ?_, ?_⟩
    · simp [keysNodup]
    · simp [keysNodup]
    · intro p hp
      exact absurd hp (List.not_mem_nil p)
    · simp [histBytes, histBytesIn]
    · intro p hp
      exact absurd hp (List.not_mem_nil p)
    · intro p hp
      exact absurd hp (List.not_mem_nil p)
    · intro p hp
      exact hwf'.1.2.2.2.2.2.2.2 p hp
    · intro p hp
      exact absurd hp (List.not_mem_nil p)
    · intro p hp
      exact absurd hp (List.not_mem_nil p)
    · intro i hi
      exact absurd hi (List.not_mem_nil i)
    · exact List.nodup_nil
    · intro p hp
      exact absurd hp (List.not_mem_nil p)

theorem Create_isSome (s : PlasmaClientState) (id : Nat)
    (data meta : List Nat) : ∃ r, Create s id data meta = some r := by
  unfold Create
  split
  · exact ⟨_, rfl⟩
  · split
    · exact ⟨_, rfl⟩
    · exact ⟨_, rfl⟩

theorem Seal_isSome (s : PlasmaClientState) (id : Nat) :
    ∃ r, Seal s id = some r := by
  unfold Seal
  split
  · exact ⟨_, rfl⟩
  · split
    · exact ⟨_, rfl⟩
    · split
      · exact ⟨_, rfl⟩
      · exact ⟨_, rfl⟩

theorem Delete_isSome (s : PlasmaClientState) (id : Nat) :
    ∃ r, Delete s id = some r := by
  unfold Delete
  split
  · exact ⟨_, rfl⟩
  · split
    · exact ⟨_, rfl⟩
    · split
      · exact ⟨_, rfl⟩
      · exact ⟨_, rfl⟩

/-- Every public operation from an invariant state succeeds (no fatal
invariant-violation abort) and preserves the invariant. -/
theorem step_total (op : Op) {s : PlasmaClientState} (hwf : WF s) :
    ∃ s', step s op = some s' ∧ WF s' := by
  cases op with
  | create id data meta =>
    obtain ⟨r, hr⟩ := Create_isSome s id data meta
    exact ⟨r.1, by simp [step, hr], Create_WF hwf hr⟩
  | «seal» id =>
    obtain ⟨r, hr⟩ := Seal_isSome s id
    exact ⟨r.1, by simp [step, hr], Seal_WF hwf hr⟩
  | abort id =>
    obtain ⟨r, hr, hwf'⟩ := Abort_total id hwf
    exact ⟨r.1, by simp [step, hr], hwf'⟩
  | get ids t out =>
    obtain ⟨r, hr, hwf'⟩ := Get_total ids t out hwf
    exact ⟨r.1, by simp [step, hr], hwf'⟩
  | release id =>
    obtain ⟨r, hr, hwf'⟩ := Release_total id hwf
    exact ⟨r.1, by simp [step, hr], hwf'⟩
  | delete id =>
    obtain ⟨r, hr⟩ := Delete_isSome s id
    exact ⟨r.1, by simp [step, hr], Delete_WF hwf hr⟩
  | disconnect =>
    obtain ⟨r, hr, hwf'⟩ := Disconnect_total hwf
    exact ⟨r.1, by simp [step, hr], hwf'⟩

/-- A freshly connected client satisfies the invariant. -/
theorem Connect_WF {succeeds : Nat → Bool} {sname mname : String}
    {delay : Nat} {nr : Int} {mfd : Nat} {cap : Nat}
    {store0 : List (Nat × StoreEntry)} {nfd : Nat} {s : PlasmaClientState}
    (hst : StoreWF store0 nfd)
    (h : Connect succeeds sname mname delay nr mfd cap store0 nfd = some s) :
    WF s := by
  unfold Connect at h
  split at h
  · cases h
  · cases h
    refine ⟨⟨?_, ?_, hst.1, ?_, ?_, ?_, ?_, ?_⟩, ?_, ?_, ?_, ?_, ?_⟩
    · simp [keysNodup]
    · simp [keysNodup]
    · intro p hp
      exact absurd hp (List.not_mem_nil p)
    · simp [histBytes, histBytesIn]
    · intro p hp
      exact absurd hp (List.not_mem_nil p)
    · intro p hp
      exact absurd hp (List.not_mem_nil p)
    · intro p hp
      exact hst.2 p hp
    · intro p hp
      exact absurd hp (List.not_mem_nil p)
    · intro p hp
      exact absurd hp (List.not_mem_nil p)
    · intro i hi
      exact absurd hi (List.not_mem_nil i)
    · exact List.nodup_nil
    · intro p hp
      exact absurd hp (List.not_mem_nil p)

/-- Every reachable state satisfies the inductive invariant. -/
theorem Reachable_WF {s : PlasmaClientState} (h : Reachable s) : WF s := by
  induction h with
  | init succeeds sname mname delay nr mfd cap store0 nfd s hst hc =>
    exact Connect_WF hst hc
  | next s s' op _ hstep ih =>
    obtain ⟨s'', hs'', hwf''⟩ := step_total op ih
    rw [hstep] at hs''
    cases hs''
    exact hwf''

/-! ## Claim theorems -/

/-- C1: every state reachable from a freshly connected client by the
public operations (Create, Seal, Abort, Get, Release, Delete,
Disconnect) satisfies invariants I1–I5; in particular the `count` field
of each mmap-table entry equals the number of in-use-table entries whose
`PlasmaObject.store_fd` refers to that entry. -/
theorem C1_reachable_invariants {s : PlasmaClientState}
    (h : Reachable s) :
    Inv1 s ∧ Inv2 s ∧ Inv3 s ∧ Inv4 s ∧ Inv5 s ∧
    ∀ p ∈ s.mmap_table,
      p.2.count = (countFd p.1 s.objects_in_use : Int) := by
  obtain ⟨_, h1, h2, h3, h4, h5⟩ := Reachable_WF h
  exact ⟨h1, h2, h3, h4, h5, h2⟩

/-- Witness for C1 at a concrete freshly connected client. -/
theorem C1_reachable_invariants_witness :
    Inv1 { connected := true, manager_conn := -1, mmap_table := [], objects_in_use := [], release_history := [], in_use_object_bytes := 0, release_delay := 64, store_capacity := 1000, store := [], next_fd := 0 } ∧
    Inv2 { connected := true, manager_conn := -1, mmap_table := [], objects_in_use := [], release_history := [], in_use_object_bytes := 0, release_delay := 64, store_capacity := 1000, store := [], next_fd := 0 } ∧
    Inv3 { connected := true, manager_conn := -1, mmap_table := [], objects_in_use := [], release_history := [], in_use_object_bytes := 0, release_delay := 64, store_capacity := 1000, store := [], next_fd := 0 } ∧
    Inv4 { connected := true, manager_conn := -1, mmap_table := [], objects_in_use := [], release_history := [], in_use_object_bytes := 0, release_delay := 64, store_capacity := 1000, store := [], next_fd := 0 } ∧
    Inv5 { connected := true, manager_conn := -1, mmap_table := [], objects_in_use := [], release_history := [], in_use_object_bytes := 0, release_delay := 64, store_capacity := 1000, store := [], next_fd := 0 } ∧
    ∀ p ∈ ({ connected := true, manager_conn := -1, mmap_table := [], objects_in_use := [], release_history := [], in_use_object_bytes := 0, release_delay := 64, store_capacity := 1000, store := [], next_fd := 0 } : PlasmaClientState).mmap_table,
      p.2.count = (countFd p.1 ({ connected := true, manager_conn := -1, mmap_table := [], objects_in_use := [], release_history := [], in_use_object_bytes := 0, release_delay := 64, store_capacity := 1000, store := [], next_fd := 0 } : PlasmaClientState).objects_in_use : Int) :=
  C1_reachable_invariants
    (Reachable.init (fun _ => true) "store" "" 64 (-1) 0 1000 [] 0 _
      (by decide) (by decide))

/-- C8: in the mmap table, a decrement whose count reaches zero unmaps
the region and removes the entry; a decrement below zero (or of a
missing entry) is a fatal invariant violation; and under invariants
I1/I2 the fatal branch is unreachable for any in-use object, so every
public operation from an invariant state completes without the fatal
abort. -/
theorem C8_decrement_fatal_unreachable :
    (∀ (t : List (Nat × ClientMmapTableEntry)) (fd : Nat)
      (e : ClientMmapTableEntry), alookup fd t = some e →
        (e.count = 1 → decrement_fd t fd = some (aerase fd t)) ∧
        (2 ≤ e.count →
          decrement_fd t fd =
            some (aupdate fd { e with count := e.count - 1 } t)) ∧
        (e.count ≤ 0 → decrement_fd t fd = none)) ∧
    (∀ (t : List (Nat × ClientMmapTableEntry)) (fd : Nat),
      alookup fd t = none → decrement_fd t fd = none) ∧
    (∀ (s : PlasmaClientState) (oid : Nat) (e2 : ObjectInUseEntry),
      Inv1 s → Inv2 s → (oid, e2) ∈ s.objects_in_use →
      (decrement_fd s.mmap_table e2.object.store_fd).isSome) ∧
    (∀ (s : PlasmaClientState) (op : Op), WF s → (step s op).isSome) := by
  refine ⟨?_, ?_, ?_, ?_⟩
  · intro t fd e he
    refine ⟨?_, ?_, ?_⟩
    · intro h1
      simp [decrement_fd, he, h1]
    · intro h2
      have hn0 : ¬e.count ≤ 0 := by omega
      have hn1 : ¬e.count = 1 := by omega
      simp [decrement_fd, he, hn0, hn1]
    · intro h0
      simp [decrement_fd, he, h0]
  · intro t fd h
    simp [decrement_fd, h]
  · intro s oid e2 h1 h2 hmem
    obtain ⟨me, hme⟩ := Option.isSome_iff_exists.mp (h1 (oid, e2) hmem)
    have hcnt : me.count = (countFd e2.object.store_fd s.objects_in_use : Int) :=
      h2 (e2.object.store_fd, me) (mem_of_alookup hme)
    have hpos : 0 < countFd e2.object.store_fd s.objects_in_use :=
      countFd_pos_of_mem hmem rfl
    have h0 : ¬me.count ≤ 0 := by
      rw [hcnt]
      push_cast
      omega
    unfold decrement_fd
    simp only [hme]
    rw [if_neg h0]
    split <;> simp
  · intro s op hwf
    obtain ⟨s', hs', _⟩ := step_total op hwf
    rw [hs']
    rfl

/-- Witness for C8 at a concrete table, descriptor and state. -/
theorem C8_decrement_fatal_unreachable_witness :
    decrement_fd [(3, ⟨3, 8, 1⟩)] 3 = some (aerase 3 [(3, ⟨3, 8, 1⟩)]) ∧
    decrement_fd ([] : List (Nat × ClientMmapTableEntry)) 3 = none ∧
    (step { connected := true, manager_conn := -1, mmap_table := [], objects_in_use := [], release_history := [], in_use_object_bytes := 0, release_delay := 64, store_capacity := 1000, store := [], next_fd := 0 } (Op.delete 3)).isSome :=
  ⟨((C8_decrement_fatal_unreachable.1 [(3, ⟨3, 8, 1⟩)] 3 ⟨3, 8, 1⟩
      (by decide)).1 (by decide)),
   C8_decrement_fatal_unreachable.2.1 [] 3 (by decide),
   C8_decrement_fatal_unreachable.2.2.2 _ (Op.delete 3) (by decide)⟩

/-- C9: Connect retries the store socket up to `num_retries` attempts
(the declared default `-1` resolving to 50); on success it connects to
the manager exactly when the manager socket path is non-empty, stores
the handshake's `store_capacity`, and initialises all tables empty; if
every permitted attempt fails, Connect fails. -/
theorem C9_connect :
    resolveNumRetries (-1) = 50 ∧
    (∀ (succeeds : Nat → Bool) (n : Nat),
      (connectAttempts succeeds n).isSome ↔ ∃ i < n, succeeds i = true) ∧
    (∀ succeeds sname mname delay nr mfd cap store0 nfd
      (s : PlasmaClientState),
      Connect succeeds sname mname delay nr mfd cap store0 nfd = some s →
        (s.manager_conn ≠ -1 ↔ mname ≠ "") ∧ s.store_capacity = cap ∧
        s.mmap_table = [] ∧ s.objects_in_use = [] ∧
        s.release_history = [] ∧ s.in_use_object_bytes = 0 ∧
        s.connected = true) ∧
    (∀ succeeds sname mname delay nr mfd cap store0 nfd,
      (∀ i, i < resolveNumRetries nr → succeeds i = false) →
      Connect succeeds sname mname delay nr mfd cap store0 nfd = none) := by
  refine ⟨rfl, ?_, ?_, ?_⟩
  · intro succeeds n
    rw [connectAttempts, List.find?_isSome]
    constructor
    · rintro ⟨x, hx, hp⟩
      exact ⟨x, List.mem_range.mp hx, hp⟩
    · rintro ⟨i, hi, hp⟩
      exact ⟨i, List.mem_range.mpr hi, hp⟩
  · intro succeeds sname mname delay nr mfd cap store0 nfd s h
    unfold Connect at h
    split at h
    · cases h
    · cases h
      refine ⟨?_, rfl, rfl, rfl, rfl, rfl, rfl⟩
      by_cases hm : mname = ""
      · simp [hm]
      · simp only [if_neg hm]
        constructor
        · intro _
          exact hm
        · intro _ hc
          have h0 : (0 : Int) ≤ (mfd : Int) := Int.natCast_nonneg mfd
          omega
  · intro succeeds sname mname delay nr mfd cap store0 nfd hfail
    unfold Connect
    have : connectAttempts succeeds (resolveNumRetries nr) = none := by
      rw [connectAttempts, List.find?_eq_none]
      intro i hi
      simp [hfail i (List.mem_range.mp hi)]
    rw [this]

/-- Witness for C9's conditional parts at concrete arguments. -/
theorem C9_connect_witness :
    ((({ connected := true, manager_conn := 7, mmap_table := [], objects_in_use := [], release_history := [], in_use_object_bytes := 0, release_delay := 64, store_capacity := 555, store := [], next_fd := 0 } : PlasmaClientState).manager_conn ≠ -1 ↔ ("mgr" : String) ≠ "") ∧
      ({ connected := true, manager_conn := 7, mmap_table := [], objects_in_use := [], release_history := [], in_use_object_bytes := 0, release_delay := 64, store_capacity := 555, store := [], next_fd := 0 } : PlasmaClientState).store_capacity = 555 ∧
      ({ connected := true, manager_conn := 7, mmap_table := [], objects_in_use := [], release_history := [], in_use_object_bytes := 0, release_delay := 64, store_capacity := 555, store := [], next_fd := 0 } : PlasmaClientState).mmap_table = [] ∧
      ({ connected := true, manager_conn := 7, mmap_table := [], objects_in_use := [], release_history := [], in_use_object_bytes := 0, release_delay := 64, store_capacity := 555, store := [], next_fd := 0 } : PlasmaClientState).objects_in_use = [] ∧
      ({ connected := true, manager_conn := 7, mmap_table := [], objects_in_use := [], release_history := [], in_use_object_bytes := 0, release_delay := 64, store_capacity := 555, store := [], next_fd := 0 } : PlasmaClientState).release_history = [] ∧
      ({ connected := true, manager_conn := 7, mmap_table := [], objects_in_use := [], release_history := [], in_use_object_bytes := 0, release_delay := 64, store_capacity := 555, store := [], next_fd := 0 } : PlasmaClientState).in_use_object_bytes = 0 ∧
      ({ connected := true, manager_conn := 7, mmap_table := [], objects_in_use := [], release_history := [], in_use_object_bytes := 0, release_delay := 64, store_capacity := 555, store := [], next_fd := 0 } : PlasmaClientState).connected = true) ∧
    Connect (fun _ => false) "store" "mgr" 64 2 7 555 [] 0 = none :=
  ⟨C9_connect.2.2.1 (fun _ => true) "store" "mgr" 64 (-1) 7 555 [] 0 _
      (by decide),
   C9_connect.2.2.2 (fun _ => false) "store" "mgr" 64 2 7 555 [] 0
      (fun i _ => rfl)⟩

/-- C10: `get_manager_fd` is a pure accessor of the manager connection:
after a successful Connect it returns `-1` exactly when the manager
socket path was empty, and it always returns the `manager_conn_` field
unchanged, modifying nothing. -/
theorem C10_get_manager_fd :
    (∀ succeeds sname mname delay nr mfd cap store0 nfd
      (s : PlasmaClientState),
      Connect succeeds sname mname delay nr mfd cap store0 nfd = some s →
      (get_manager_fd s = -1 ↔ mname = "")) ∧
    (∀ s : PlasmaClientState, get_manager_fd s = s.manager_conn) := by
  constructor
  · intro succeeds sname mname delay nr mfd cap store0 nfd s h
    unfold Connect at h
    split at h
    · cases h
    · cases h
      show (if mname = "" then (-1 : Int) else (mfd : Int)) = -1 ↔ mname = ""
      by_cases hm : mname = ""
      · simp [hm]
      · simp only [if_neg hm]
        constructor
        · intro hc
          exfalso
          have h0 : (0 : Int) ≤ (mfd : Int) := Int.natCast_nonneg mfd
          omega
        · intro hc
          exact absurd hc hm
  · intro s
    rfl

/-- Witness for C10 at a concrete Connect. -/
theorem C10_get_manager_fd_witness :
    get_manager_fd { connected := true, manager_conn := -1, mmap_table := [], objects_in_use := [], release_history := [], in_use_object_bytes := 0, release_delay := 64, store_capacity := 555, store := [], next_fd := 0 } = -1 ↔ ("" : String) = "" :=
  C10_get_manager_fd.1 (fun _ => true) "store" "" 64 (-1) 7 555 [] 0 _
    (by decide)

/-- C2: on every enqueue into the release history (a Release that takes
`local_refs` to zero), the client flushes oldest-first while the history
is longer than `release_delay` or the summed in-use bytes exceed
`store_capacity / kL3CacheSizeBytes` (the 100 MB L3 constant); each
flushed id has undergone `PerformRelease` (its in-use entry is removed,
its mmap count decremented — the resulting state again satisfies the
invariant), and the flush completes before the enqueue returns: the
returned state is below both thresholds, and no flush happens when
neither threshold is exceeded. -/
theorem C2_release_flush_policy {s : PlasmaClientState} {id : Nat}
    {e : ObjectInUseEntry} (hwf : WF s) (hc : s.connected = true)
    (he : alookup id s.objects_in_use = some e)
    (hsl : e.is_sealed = true) (hr : e.local_refs = 1) :
    ∃ s', Release s id = some (s', .ok) ∧ WF s' ∧
      kL3CacheSizeBytes = 100000000 ∧
      s'.release_history.length ≤ s'.release_delay ∧
      s'.in_use_object_bytes ≤ s'.store_capacity / kL3CacheSizeBytes ∧
      (∃ k, s'.release_history = (s.release_history ++ [id]).drop k ∧
        ∀ i ∈ (s.release_history ++ [id]).take k,
          alookup i s'.objects_in_use = none) ∧
      (¬NeedFlush (enqueueState s id e) → s' = enqueueState s id e) := by
  have hnotfalse : ¬s.connected = false := by rw [hc]; simp
  have hsl' : ¬e.is_sealed = false := by rw [hsl]; simp
  have h0 : ¬e.local_refs = 0 := by omega
  have hwf1 := enqueue_WF hwf he hsl hr
  obtain ⟨s', hfl, hwf', ⟨k, hdrop, htake⟩, _, hnoflush, hquiet, _, _,
    hrd, hcap, _, _⟩ := flushLoop_spec
      (enqueueState s id e).release_history.length hwf1
  have hrel : Release s id = some (s', .ok) := by
    simp [Release, hnotfalse, he, hsl', h0, hr, flushReleases, hfl]
  have hq := hquiet (Nat.le_refl _)
  rw [NeedFlush] at hq
  push_neg at hq
  exact ⟨s', hrel, hwf', rfl, hq.1, hq.2, ⟨k, hdrop, htake⟩, hnoflush⟩

/-- Witness for C2: a sealed single-reference object in a small client,
with `release_delay = 0` so the enqueue flushes it immediately. -/
theorem C2_release_flush_policy_witness :
    ∃ s', Release { connected := true, manager_conn := -1, mmap_table := [(0, ⟨0, 3, 1⟩)], objects_in_use := [(5, ⟨⟨0, 3, 0, 2, 2, 1, 0⟩, 1, true⟩)], release_history := [], in_use_object_bytes := 0, release_delay := 0, store_capacity := 1000000000, store := [(5, ⟨0, [7, 7], [9], true⟩)], next_fd := 1 } 5 = some (s', .ok) ∧
      WF s' ∧
      kL3CacheSizeBytes = 100000000 ∧
      s'.release_history.length ≤ s'.release_delay ∧
      s'.in_use_object_bytes ≤ s'.store_capacity / kL3CacheSizeBytes ∧
      (∃ k, s'.release_history =
        (([] : List Nat) ++ [5]).drop k ∧
        ∀ i ∈ (([] : List Nat) ++ [5]).take k,
          alookup i s'.objects_in_use = none) ∧
      (¬NeedFlush (enqueueState { connected := true, manager_conn := -1, mmap_table := [(0, ⟨0, 3, 1⟩)], objects_in_use := [(5, ⟨⟨0, 3, 0, 2, 2, 1, 0⟩, 1, true⟩)], release_history := [], in_use_object_bytes := 0, release_delay := 0, store_capacity := 1000000000, store := [(5, ⟨0, [7, 7], [9], true⟩)], next_fd := 1 } 5 ⟨⟨0, 3, 0, 2, 2, 1, 0⟩, 1, true⟩) →
        s' = enqueueState { connected := true, manager_conn := -1, mmap_table := [(0, ⟨0, 3, 1⟩)], objects_in_use := [(5, ⟨⟨0, 3, 0, 2, 2, 1, 0⟩, 1, true⟩)], release_history := [], in_use_object_bytes := 0, release_delay := 0, store_capacity := 1000000000, store := [(5, ⟨0, [7, 7], [9], true⟩)], next_fd := 1 } 5 ⟨⟨0, 3, 0, 2, 2, 1, 0⟩, 1, true⟩) :=
  C2_release_flush_policy (by decide) rfl (by decide) rfl rfl

/-- C3: for an in-use sealed object with `local_refs ≥ 1`, Release
decrements `local_refs`; when the count reaches zero the entry is not
removed but the id is appended to the release history (the object is
Queued, mapping retained), provided the append does not itself trip the
flush thresholds. -/
theorem C3_release_decrement_queue {s : PlasmaClientState} {id : Nat}
    {e : ObjectInUseEntry} (hwf : WF s) (hc : s.connected = true)
    (he : alookup id s.objects_in_use = some e)
    (hsl : e.is_sealed = true) (h1 : 1 ≤ e.local_refs) :
    (2 ≤ e.local_refs →
      Release s id = some ({ s with objects_in_use := aupdate id { e with local_refs := e.local_refs - 1 } s.objects_in_use }, .ok)) ∧
    (e.local_refs = 1 → ¬NeedFlush (enqueueState s id e) →
      ∃ s', Release s id = some (s', .ok) ∧
        alookup id s'.objects_in_use = some { e with local_refs := 0 } ∧
        s'.release_history = s.release_history ++ [id]) := by
  have hnotfalse : ¬s.connected = false := by rw [hc]; simp
  have hsl' : ¬e.is_sealed = false := by rw [hsl]; simp
  constructor
  · intro h2
    have h0 : ¬e.local_refs = 0 := by omega
    have hr1 : ¬e.local_refs = 1 := by omega
    simp [Release, hnotfalse, he, hsl', h0, hr1]
  · intro hr hnf
    have h0 : ¬e.local_refs = 0 := by omega
    have hwf1 := enqueue_WF hwf he hsl hr
    obtain ⟨s', hfl, _, _, _, hnoflush, _, _, _, _, _, _⟩ :=
      flushLoop_spec (enqueueState s id e).release_history.length hwf1
    have hs' : s' = enqueueState s id e := hnoflush hnf
    refine ⟨s', by simp [Release, hnotfalse, he, hsl', h0, hr,
      flushReleases, hfl], ?_, ?_⟩
    · rw [hs']
      show alookup id (aupdate id { e with local_refs := 0 }
        s.objects_in_use) = _
      rw [alookup_aupdate, if_pos rfl]
    · rw [hs']
      rfl

/-- Witness for C3: a two-reference release performs a plain decrement
on a concrete client. -/
theorem C3_release_decrement_queue_witness :
    Release ({ connected := true, manager_conn := -1, mmap_table := [(0, ⟨0, 3, 1⟩)], objects_in_use := [(5, ⟨⟨0, 3, 0, 2, 2, 1, 0⟩, 2, true⟩)], release_history := [], in_use_object_bytes := 0, release_delay := 4, store_capacity := 1000000000, store := [(5, ⟨0, [7, 7], [9], true⟩)], next_fd := 1 } : PlasmaClientState) 5 =
      some (({ connected := true, manager_conn := -1, mmap_table := [(0, ⟨0, 3, 1⟩)], objects_in_use := aupdate 5 ⟨⟨0, 3, 0, 2, 2, 1, 0⟩, 2 - 1, true⟩ [(5, ⟨⟨0, 3, 0, 2, 2, 1, 0⟩, 2, true⟩)], release_history := [], in_use_object_bytes := 0, release_delay := 4, store_capacity := 1000000000, store := [(5, ⟨0, [7, 7], [9], true⟩)], next_fd := 1 } : PlasmaClientState), .ok) :=
  (C3_release_decrement_queue
    (e := ⟨⟨0, 3, 0, 2, 2, 1, 0⟩, 2, true⟩)
    (by decide) rfl (by decide) rfl (by decide)).1 (by decide)

/-! ## Get support lemmas -/

theorem getOne_store_eq (s : PlasmaClientState) (id : Nat)
    (prev : ObjectBuffer) : (getOne s id prev).1.store = s.store := by
  unfold getOne
  rcases alookup id s.objects_in_use with _ | e
  · rcases alookup id s.store with _ | se
    · rfl
    · by_cases hsl : se.sealed
      · simp only [if_pos hsl]
        unfold begin_use
        rcases alookup id s.objects_in_use with _ | e2 <;> rfl
      · simp only [if_neg hsl]
  · by_cases hsl : e.is_sealed
    · simp only [if_pos hsl]
      by_cases h0 : e.local_refs = 0 <;>
        · simp only [h0, if_pos, if_neg, reduceIte]
          unfold begin_use
          rcases alookup id _ with _ | e2 <;> rfl
    · simp only [if_neg hsl]

theorem getOne_other_id {s : PlasmaClientState} {i id : Nat}
    (prev : ObjectBuffer) (hne : i ≠ id) :
    alookup id (getOne s i prev).1.objects_in_use =
      alookup id s.objects_in_use := by
  unfold getOne
  rcases alookup i s.objects_in_use with _ | e
  · rcases alookup i s.store with _ | se
    · rfl
    · by_cases hsl : se.sealed
      · simp only [if_pos hsl]
        unfold begin_use
        rcases alookup i s.objects_in_use with _ | e2
        · show alookup id (aupdate i _ s.objects_in_use) = _
          rw [alookup_aupdate, if_neg hne]
        · show alookup id (aupdate i _ s.objects_in_use) = _
          rw [alookup_aupdate, if_neg hne]
      · simp only [if_neg hsl]
  · by_cases hsl : e.is_sealed
    · simp only [if_pos hsl]
      by_cases h0 : e.local_refs = 0 <;>
        · simp only [h0, if_pos, if_neg, reduceIte]
          unfold begin_use
          rcases alookup i _ with _ | e2
          · show alookup id (aupdate i _ _) = _
            rw [alookup_aupdate, if_neg hne]
          · show alookup id (aupdate i _ _) = _
            rw [alookup_aupdate, if_neg hne]
    · simp only [if_neg hsl]

theorem getOne_missing_eq {s : PlasmaClientState} {id : Nat}
    (prev : ObjectBuffer)
    (hnotin : alookup id s.objects_in_use = none)
    (hnotready : ∀ se, alookup id s.store = some se → se.sealed = false) :
    getOne s id prev = (s, { prev with data_size := -1 }) := by
  unfold getOne
  rcases hst0 : alookup id s.store with _ | se
  · simp only [hnotin, hst0]
  · have := hnotready se hst0
    simp only [hnotin, hst0, this]
    rfl

/-- C4: a Get of a Queued object (present in the in-use table with
`local_refs = 0`, hence in the release history) reclaims it: its
`local_refs` is set to 1, the id is removed from the release history,
and no fresh mmap is performed — the mmap table is left exactly as it
was. -/
theorem C4_get_reclaims_queued {s : PlasmaClientState} {id : Nat}
    {e : ObjectInUseEntry} {t : Int} {prev : ObjectBuffer}
    (hwf : WF s) (hc : s.connected = true)
    (he : alookup id s.objects_in_use = some e)
    (hsl : e.is_sealed = true) (h0 : e.local_refs = 0) :
    ∃ s' b, Get s [id] t [prev] = some (s', [b], .ok) ∧
      alookup id s'.objects_in_use = some { e with local_refs := 1 } ∧
      id ∉ s'.release_history ∧
      s'.mmap_table = s.mmap_table ∧
      b.data_size = e.object.data_size := by
  have hnotfalse : ¬s.connected = false := by rw [hc]; simp
  obtain ⟨se, hse⟩ := Option.isSome_iff_exists.mp
    (hwf.1.2.2.2.2.2.1 (id, e) (mem_of_alookup he))
  refine ⟨{ s with objects_in_use := aupdate id { e with local_refs := e.local_refs + 1 } s.objects_in_use, release_history := s.release_history.filter (· ≠ id), in_use_object_bytes := s.in_use_object_bytes - (e.object.data_size + e.object.metadata_size) },
    ⟨se.data, e.object.data_size, se.metadata, e.object.metadata_size,
      e.object.device_num⟩, ?_, ?_, ?_, rfl, rfl⟩
  · simp [Get, getLoop, getOne, hnotfalse, he, hsl, h0, hse, begin_use]
  · show alookup id (aupdate id { e with local_refs := e.local_refs + 1 }
      s.objects_in_use) = _
    rw [alookup_aupdate, if_pos rfl, h0]
  · show id ∉ s.release_history.filter (· ≠ id)
    simp [List.mem_filter]

/-- Witness for C4: reclaiming a queued object on a concrete client. -/
theorem C4_get_reclaims_queued_witness :
    ∃ s' b, Get { connected := true, manager_conn := -1, mmap_table := [(0, ⟨0, 3, 1⟩)], objects_in_use := [(5, ⟨⟨0, 3, 0, 2, 2, 1, 0⟩, 0, true⟩)], release_history := [5], in_use_object_bytes := 3, release_delay := 4, store_capacity := 1000000000, store := [(5, ⟨0, [7, 7], [9], true⟩)], next_fd := 1 } [5] (-1) [⟨[], 0, [], 0, 0⟩] = some (s', [b], .ok) ∧
      alookup 5 s'.objects_in_use =
        some ⟨⟨0, 3, 0, 2, 2, 1, 0⟩, 1, true⟩ ∧
      5 ∉ s'.release_history ∧
      s'.mmap_table = [(0, ⟨0, 3, 1⟩)] ∧
      b.data_size = 2 :=
  C4_get_reclaims_queued (e := ⟨⟨0, 3, 0, 2, 2, 1, 0⟩, 0, true⟩)
    (by decide) rfl (by decide) rfl rfl

/-- Processing a batch of requests never creates an in-use entry for an
object that is not ready, leaves its output slots untouched apart from
the `data_size = -1` marker, and never touches the store. -/
theorem getLoop_missing {id : Nat} :
    ∀ (l : List (Nat × ObjectBuffer)) (s : PlasmaClientState),
      alookup id s.objects_in_use = none →
      (∀ se, alookup id s.store = some se → se.sealed = false) →
      alookup id (getLoop s l).1.objects_in_use = none ∧
      (getLoop s l).1.store = s.store ∧
      (getLoop s l).2.length = l.length ∧
      ∀ (j : Nat) (prev : ObjectBuffer), l[j]? = some (id, prev) →
        (getLoop s l).2[j]? = some { prev with data_size := -1 } := by
  intro l
  induction l with
  | nil =>
    intro s hin hready
    refine ⟨hin, rfl, rfl, ?_⟩
    intro j prev h
    simp at h
  | cons p rest ih =>
    intro s hin hready
    obtain ⟨i, prev0⟩ := p
    by_cases hi : i = id
    · subst hi
      have hone : getOne s i prev0 = (s, { prev0 with data_size := -1 }) :=
        getOne_missing_eq prev0 hin hready
      obtain ⟨ha, hb, hlen, hd⟩ := ih s hin hready
      unfold getLoop
      rw [hone]
      refine ⟨ha, hb, by simp [hlen], ?_⟩
      intro j prev h
      cases j with
      | zero =>
        simp only [List.getElem?_cons_zero, Option.some.injEq] at h
        obtain ⟨_, rfl⟩ := Prod.mk.injEq .. ▸ h
        simp
      | succ j =>
        simp only [List.getElem?_cons_succ] at h ⊢
        exact hd j prev h
    · have hin1 : alookup id (getOne s i prev0).1.objects_in_use = none := by
        rw [getOne_other_id prev0 hi]
        exact hin
      have hst1 : (getOne s i prev0).1.store = s.store :=
        getOne_store_eq s i prev0
      have hready1 : ∀ se,
          alookup id (getOne s i prev0).1.store = some se →
          se.sealed = false := by
        rw [hst1]
        exact hready
      obtain ⟨ha, hb, hlen, hd⟩ := ih (getOne s i prev0).1 hin1 hready1
      unfold getLoop
      refine ⟨ha, by rw [hb, hst1], by simp [hlen], ?_⟩
      intro j prev h
      cases j with
      | zero =>
        simp only [List.getElem?_cons_zero, Option.some.injEq] at h
        have : i = id := congrArg Prod.fst h
        exact absurd this hi
      | succ j =>
        simp only [List.getElem?_cons_succ] at h ⊢
        exact hd j prev h

/-- C6: for a Get whose request list contains an object that is not
ready by the deadline (not in local use and not sealed at the store),
the call still succeeds — the client stays usable and the other slots
are valid — the unready object's output slots keep their previous
buffers with only `data_size` set to `-1`, and no in-use-table entry is
created for that id. The wall-clock blocking itself is abstracted:
readiness by the deadline is modelled by the store's contents. -/
theorem C6_get_timeout_missing {s : PlasmaClientState} {ids : List Nat}
    {t : Int} {out : List ObjectBuffer} {id : Nat}
    (hwf : WF s) (hc : s.connected = true)
    (hnotin : alookup id s.objects_in_use = none)
    (hnotready : ∀ se, alookup id s.store = some se → se.sealed = false) :
    ∃ s' bufs, Get s ids t out = some (s', bufs, .ok) ∧
      alookup id s'.objects_in_use = none ∧
      ∀ j : Nat, ids[j]? = some id →
        bufs[j]? = (out[j]?).map (fun b => { b with data_size := -1 }) := by
  have hnotfalse : ¬s.connected = false := by rw [hc]; simp
  obtain ⟨ha, _, hlen, hd⟩ := getLoop_missing (ids.zip out) s hnotin hnotready
  refine ⟨(getLoop s (ids.zip out)).1, (getLoop s (ids.zip out)).2,
    by simp [Get, hnotfalse], ha, ?_⟩
  intro j hj
  rcases hout : out[j]? with _ | prev
  · have hjlen : out.length ≤ j := by
      by_contra hcon
      push_neg at hcon
      rw [List.getElem?_eq_getElem hcon] at hout
      cases hout
    have : (getLoop s (ids.zip out)).2.length ≤ j := by
      rw [hlen, List.length_zip]
      omega
    rw [List.getElem?_eq_none this]
    rfl
  · have hzip : (ids.zip out)[j]? = some (id, prev) := by
      rw [List.getElem?_zip_eq_some]
      exact ⟨hj, hout⟩
    rw [hd j prev hzip]
    rfl

/-- Witness for C6: a Get of one absent and one present object on a
concrete client — the absent slot keeps its buffer with `data_size`
`-1`, the present slot is served. -/
theorem C6_get_timeout_missing_witness :
    ∃ s' bufs, Get { connected := true, manager_conn := -1, mmap_table := [], objects_in_use := [], release_history := [], in_use_object_bytes := 0, release_delay := 4, store_capacity := 1000000000, store := [(5, ⟨0, [7, 7], [9], true⟩)], next_fd := 1 } [9, 5] 100 [⟨[1], 1, [2], 1, 0⟩, ⟨[], 0, [], 0, 0⟩] = some (s', bufs, .ok) ∧
      alookup 9 s'.objects_in_use = none ∧
      ∀ j : Nat, ([9, 5] : List Nat)[j]? = some 9 →
        bufs[j]? = (([⟨[1], 1, [2], 1, 0⟩, ⟨[], 0, [], 0, 0⟩] :
          List ObjectBuffer)[j]?).map
            (fun b => { b with data_size := -1 }) :=
  C6_get_timeout_missing (by decide) rfl (by decide) (by decide)

/-- C7: Abort succeeds exactly in the Creating state with a single
reference — removing the local in-use entry and the store-side object —
and every illegal lifecycle operation (Abort on a missing or sealed
object or with extra references, Seal on an absent object, Release
without a matching Get) returns an error and leaves the client state
unchanged. -/
theorem C7_abort_and_illegal_ops {s : PlasmaClientState} (hwf : WF s)
    (hc : s.connected = true) :
    (∀ id e, alookup id s.objects_in_use = some e → e.is_sealed = false →
      e.local_refs = 1 →
      ∃ s', Abort s id = some (s', .ok) ∧ WF s' ∧
        alookup id s'.objects_in_use = none ∧
        alookup id s'.store = none) ∧
    (∀ id, alookup id s.objects_in_use = none →
      Abort s id = some (s, .staterr)) ∧
    (∀ id e, alookup id s.objects_in_use = some e →
      e.is_sealed = true ∨ e.local_refs ≠ 1 →
      Abort s id = some (s, .staterr)) ∧
    (∀ id, alookup id s.objects_in_use = none →
      Seal s id = some (s, .staterr)) ∧
    (∀ id, alookup id s.objects_in_use = none →
      Release s id = some (s, .staterr)) := by
  have hnotfalse : ¬s.connected = false := by rw [hc]; simp
  refine ⟨?_, ?_, ?_, ?_, ?_⟩
  · intro id e hx hunsealed hr1
    have hsl : ¬e.is_sealed = true := by rw [hunsealed]; simp
    obtain ⟨t, ht, _, _, _, _⟩ :=
      decrement_after_remove hwf.1.1 hwf.1.2.1 hwf.2.1 hwf.2.2.1 hx hwf.1.2.2.2.2.2.2.1
    have habort : Abort s id = some ({ s with mmap_table := t, objects_in_use := aerase id s.objects_in_use, store := aerase id s.store }, .ok) := by
      simp [Abort, hnotfalse, hx, hsl, hr1, ht]
    obtain ⟨r, hr, hwfr⟩ := Abort_total id hwf
    rw [habort] at hr
    cases hr
    refine ⟨_, habort, hwfr, ?_, ?_⟩
    · show alookup id (aerase id s.objects_in_use) = none
      rw [alookup_aerase, if_pos rfl]
    · show alookup id (aerase id s.store) = none
      rw [alookup_aerase, if_pos rfl]
  · intro id hx
    simp [Abort, hnotfalse, hx]
  · intro id e hx hbad
    rcases hbad with hbad | hbad
    · simp [Abort, hnotfalse, hx, hbad]
    · by_cases hsl : e.is_sealed
      · simp [Abort, hnotfalse, hx, hsl]
      · simp [Abort, hnotfalse, hx, hsl, hbad]
  · intro id hx
    simp [Seal, hnotfalse, hx]
  · intro id hx
    simp [Release, hnotfalse, hx]

/-- Witness for C7: a concrete client with one unsealed single-reference
object; Abort of it succeeds, and Seal/Release/Abort of an absent id
error out without state change. -/
theorem C7_abort_and_illegal_ops_witness :
    (∃ s', Abort { connected := true, manager_conn := -1, mmap_table := [(0, ⟨0, 3, 1⟩)], objects_in_use := [(5, ⟨⟨0, 3, 0, 2, 2, 1, 0⟩, 1, false⟩)], release_history := [], in_use_object_bytes := 0, release_delay := 4, store_capacity := 1000000000, store := [(5, ⟨0, [7, 7], [9], false⟩)], next_fd := 1 } 5 = some (s', .ok) ∧
      WF s' ∧ alookup 5 s'.objects_in_use = none ∧
      alookup 5 s'.store = none) ∧
    Seal { connected := true, manager_conn := -1, mmap_table := [(0, ⟨0, 3, 1⟩)], objects_in_use := [(5, ⟨⟨0, 3, 0, 2, 2, 1, 0⟩, 1, false⟩)], release_history := [], in_use_object_bytes := 0, release_delay := 4, store_capacity := 1000000000, store := [(5, ⟨0, [7, 7], [9], false⟩)], next_fd := 1 } 9 = some ({ connected := true, manager_conn := -1, mmap_table := [(0, ⟨0, 3, 1⟩)], objects_in_use := [(5, ⟨⟨0, 3, 0, 2, 2, 1, 0⟩, 1, false⟩)], release_history := [], in_use_object_bytes := 0, release_delay := 4, store_capacity := 1000000000, store := [(5, ⟨0, [7, 7], [9], false⟩)], next_fd := 1 }, .staterr) ∧
    Release { connected := true, manager_conn := -1, mmap_table := [(0, ⟨0, 3, 1⟩)], objects_in_use := [(5, ⟨⟨0, 3, 0, 2, 2, 1, 0⟩, 1, false⟩)], release_history := [], in_use_object_bytes := 0, release_delay := 4, store_capacity := 1000000000, store := [(5, ⟨0, [7, 7], [9], false⟩)], next_fd := 1 } 9 = some ({ connected := true, manager_conn := -1, mmap_table := [(0, ⟨0, 3, 1⟩)], objects_in_use := [(5, ⟨⟨0, 3, 0, 2, 2, 1, 0⟩, 1, false⟩)], release_history := [], in_use_object_bytes := 0, release_delay := 4, store_capacity := 1000000000, store := [(5, ⟨0, [7, 7], [9], false⟩)], next_fd := 1 }, .staterr) :=
  ⟨(C7_abort_and_illegal_ops (by decide) rfl).1 5
      ⟨⟨0, 3, 0, 2, 2, 1, 0⟩, 1, false⟩ (by decide) rfl rfl,
   (C7_abort_and_illegal_ops (by decide) rfl).2.2.2.1 9 (by decide),
   (C7_abort_and_illegal_ops (by decide) rfl).2.2.2.2 9 (by decide)⟩

theorem begin_use_connected (s : PlasmaClientState) (id : Nat)
    (obj : PlasmaObject) (f : Bool) :
    (begin_use s id obj f).connected = s.connected := by
  unfold begin_use
  split <;> rfl

theorem begin_use_storeEq (s : PlasmaClientState) (id : Nat)
    (obj : PlasmaObject) (f : Bool) :
    (begin_use s id obj f).store = s.store := by
  unfold begin_use
  split <;> rfl

/-- C5: the round trip `Create(id, data, meta); Seal(id); Release(id);
Get([id])` succeeds from any invariant state of a connected client in
which the store does not yet hold `id`, and the buffer returned by Get
carries exactly the original data and metadata bytes with their
sizes. -/
theorem C5_roundtrip {s : PlasmaClientState} {id : Nat}
    (data meta : List Nat) (b0 : ObjectBuffer) (hwf : WF s)
    (hc : s.connected = true) (hfree : alookup id s.store = none) :
    ∃ s1 s2 s3 s4,
      Create s id data meta = some (s1, .ok) ∧
      Seal s1 id = some (s2, .ok) ∧
      Release s2 id = some (s3, .ok) ∧
      Get s3 [id] (-1) [b0] =
        some (s4, [⟨data, (data.length : Int), meta, (meta.length : Int), 0⟩],
          .ok) := by
  have hnotfalse : ¬s.connected = false := by rw [hc]; simp
  have hiu0 : alookup id s.objects_in_use = none := by
    rcases hx : alookup id s.objects_in_use with _ | e
    · rfl
    · have := hwf.1.2.2.2.2.2.1 (id, e) (mem_of_alookup hx)
      rw [hfree] at this
      simp at this
  -- step 1: Create inserts the unsealed object and its store entry
  have step1 : ∃ s1 obj, Create s id data meta = some (s1, .ok) ∧ WF s1 ∧
      s1.connected = true ∧
      alookup id s1.objects_in_use = some ⟨obj, 1, false⟩ ∧
      (∃ f, alookup id s1.store = some ⟨f, data, meta, false⟩) ∧
      obj.data_size = data.length ∧ obj.metadata_size = meta.length ∧
      obj.device_num = 0 := by
    have hC : Create s id data meta =
        some (begin_use { s with store := aupdate id ⟨s.next_fd, data, meta, false⟩ s.store, next_fd := s.next_fd + 1 } id ⟨s.next_fd, data.length + meta.length, 0, data.length, data.length, meta.length, 0⟩ false, .ok) := by
      simp [Create, hnotfalse, hfree]
    refine ⟨_, ⟨s.next_fd, data.length + meta.length, 0, data.length, data.length, meta.length, 0⟩,
      hC, Create_WF hwf hC, ?_, ?_, ⟨s.next_fd, ?_⟩, rfl, rfl, rfl⟩
    · rw [begin_use_connected]
      exact hc
    · rw [begin_use_absent (s := { s with store := aupdate id ⟨s.next_fd, data, meta, false⟩ s.store, next_fd := s.next_fd + 1 }) _ false hiu0]
      show alookup id (aupdate id _ s.objects_in_use) = _
      rw [alookup_aupdate, if_pos rfl]
    · rw [begin_use_storeEq]
      show alookup id (aupdate id ⟨s.next_fd, data, meta, false⟩ s.store) = _
      rw [alookup_aupdate, if_pos rfl]
  obtain ⟨s1, obj, hC, hwf1, hconn1, hiu1, ⟨f, hstore1⟩, hds, hms, hdev⟩ :=
    step1
  have hnf1 : ¬s1.connected = false := by rw [hconn1]; simp
  -- step 2: Seal marks the object sealed locally and at the store
  have step2 : ∃ s2, Seal s1 id = some (s2, .ok) ∧ WF s2 ∧
      s2.connected = true ∧
      alookup id s2.objects_in_use = some ⟨obj, 1, true⟩ ∧
      alookup id s2.store = some ⟨f, data, meta, true⟩ := by
    have hS : Seal s1 id =
        some ({ s1 with objects_in_use := aupdate id ⟨obj, 1, true⟩ s1.objects_in_use, store := aupdate id ⟨f, data, meta, true⟩ s1.store }, .ok) := by
      simp [Seal, hnf1, hiu1, hstore1]
    refine ⟨_, hS, Seal_WF hwf1 hS, hconn1, ?_, ?_⟩
    · show alookup id (aupdate id ⟨obj, 1, true⟩ s1.objects_in_use) = _
      rw [alookup_aupdate, if_pos rfl]
    · show alookup id (aupdate id ⟨f, data, meta, true⟩ s1.store) = _
      rw [alookup_aupdate, if_pos rfl]
  obtain ⟨s2, hS, hwf2, hconn2, hiu2, hstore2⟩ := step2
  have hnf2 : ¬s2.connected = false := by rw [hconn2]; simp
  -- step 3: Release enqueues and flushes; the store keeps the object
  have step3 : ∃ s3, Release s2 id = some (s3, .ok) ∧
      s3.connected = true ∧
      alookup id s3.store = some ⟨f, data, meta, true⟩ ∧
      ∀ e3, alookup id s3.objects_in_use = some e3 → e3 = ⟨obj, 0, true⟩ := by
    have hwfE := enqueue_WF hwf2 hiu2 rfl rfl
    obtain ⟨s3, hfl, hwf3, _, hmono3, _, _, hstore3, hconn3, _, _, _, _⟩ :=
      flushLoop_spec
        (enqueueState s2 id ⟨obj, 1, true⟩).release_history.length hwfE
    refine ⟨s3, ?_, ?_, ?_, ?_⟩
    · simp [Release, hnf2, hiu2, flushReleases, hfl]
    · rw [hconn3]
      exact hconn2
    · rw [hstore3]
      exact hstore2
    · intro e3 h
      have h2 : alookup id (aupdate id ⟨obj, 0, true⟩ s2.objects_in_use) =
          some e3 := hmono3 id e3 h
      rw [alookup_aupdate, if_pos rfl] at h2
      cases h2
      rfl
  obtain ⟨s3, hR, hconn3, hstore3, hiu3⟩ := step3
  have hnf3 : ¬s3.connected = false := by rw [hconn3]; simp
  -- step 4: Get returns the original bytes, reclaiming or re-mapping
  rcases hx3 : alookup id s3.objects_in_use with _ | e3
  · refine ⟨s1, s2, s3, begin_use s3 id ⟨f, data.length + meta.length, 0, data.length, data.length, meta.length, 0⟩ true, hC, hS, hR, ?_⟩
    simp [Get, hnf3, getLoop, getOne, hx3, hstore3]
  · have he3 : e3 = ⟨obj, 0, true⟩ := hiu3 e3 hx3
    subst he3
    refine ⟨s1, s2, s3, { s3 with release_history := s3.release_history.filter (· ≠ id), in_use_object_bytes := s3.in_use_object_bytes - (obj.data_size + obj.metadata_size), objects_in_use := aupdate id ⟨obj, 1, true⟩ s3.objects_in_use }, hC, hS, hR, ?_⟩
    simp [Get, hnf3, getLoop, getOne, hx3, hstore3, hds, hms, hdev,
      begin_use]

/-- Witness for C5: the round trip on a concrete fresh client with
concrete payload `[10, 20]` and metadata `[30]`. -/
theorem C5_roundtrip_witness :
    ∃ s1 s2 s3 s4,
      Create { connected := true, manager_conn := -1, mmap_table := [], objects_in_use := [], release_history := [], in_use_object_bytes := 0, release_delay := 64, store_capacity := 1000000000, store := [], next_fd := 0 } 1 [10, 20] [30] = some (s1, .ok) ∧
      Seal s1 1 = some (s2, .ok) ∧
      Release s2 1 = some (s3, .ok) ∧
      Get s3 [1] (-1) [⟨[], 0, [], 0, 0⟩] =
        some (s4, [⟨[10, 20], 2, [30], 1, 0⟩], .ok) :=
  C5_roundtrip [10, 20] [30] ⟨[], 0, [], 0, 0⟩ (by decide) rfl (by decide)

end Plasma
